import Mathlib

/-!
# Verification of the FHE string comparison core
  (`src/tfhe/examples/fhe_strings/server_key/comparisons.rs`)

Shallow embedding at the plaintext level: a `RadixCiphertext` carrying an
8-bit plaintext is modelled by the `Nat` it encrypts (so decryption is the
identity), and each homomorphic primitive of the integer evaluation key is
modelled by the arithmetic function it homomorphically computes on 8-bit
radix ciphertexts (with wrap-around `% 256` for the ring operations).
`FheAsciiChar` is modelled by the encrypted byte, `FheString` by a record of
the byte buffer, the padding tag and the length descriptor, exactly as in
`ciphertext.rs` of the repository.  All functions of
`impl StringServerKey` in `comparisons.rs` are translated one for one; the
Rust `for` loops over `0..min(len1, len2)` threading an accumulator become
structural recursions consuming both buffers simultaneously (which iterate
exactly `min` times with the same accumulator updates), and in-bounds
indexing `v[i]` becomes `List.getD v i 0`.
-/

/-- Plaintext carried by a `RadixCiphertext` (8-bit radix, values `< 256`ev). -/
abbrev RadixCiphertext := Nat

namespace IntegerKey

/-- `eq_parallelized`: homomorphic equality test, encrypts 1 or 0. -/
def eq_parallelized (a b : Nat) : Nat := if a = b then 1 else 0

/-- `le_parallelized`: homomorphic `≤` test, encrypts 1 or 0. -/
def le_parallelized (a b : Nat) : Nat := if a ≤ b then 1 else 0

/-- `ge_parallelized`: homomorphic `≥` test, encrypts 1 or 0. -/
def ge_parallelized (a b : Nat) : Nat := if b ≤ a then 1 else 0

/-- `scalar_eq_parallelized`: equality against a clear scalar. -/
def scalar_eq_parallelized (a s : Nat) : Nat := if a = s then 1 else 0

/-- `scalar_le_parallelized`: `≤` against a clear scalar. -/
def scalar_le_parallelized (a s : Nat) : Nat := if a ≤ s then 1 else 0

/-- `scalar_ge_parallelized`: `≥` against a clear scalar. -/
def scalar_ge_parallelized (a s : Nat) : Nat := if s ≤ a then 1 else 0

/-- `bitand_parallelized`: bitwise AND of the 8-bit plaintexts. -/
def bitand_parallelized (a b : Nat) : Nat := Nat.land a b

/-- `bitor_parallelized`: bitwise OR of the 8-bit plaintexts. -/
def bitor_parallelized (a b : Nat) : Nat := Nat.lor a b

/-- `bitnot_parallelized`: bitwise complement in the 8-bit message space;
for `a ≤ 255` this is exactly `255 - a`. -/
def bitnot_parallelized (a : Nat) : Nat := 255 - a

/-- `cmux_parallelized cond ct_true ct_false`: oblivious selection by a
ciphertext encrypting 1 or 0. -/
def cmux_parallelized (condition ct_true ct_false : Nat) : Nat :=
  if condition = 1 then ct_true else ct_false

/-- `mul_parallelized`: homomorphic product, wrapping in 8 bits. -/
def mul_parallelized (a b : Nat) : Nat := (a * b) % 256

/-- `add_assign_parallelized` (functional form): wrapping 8-bit addition. -/
def add_parallelized (a b : Nat) : Nat := (a + b) % 256

/-- `sub_assign_parallelized` (functional form): wrapping 8-bit subtraction. -/
def sub_parallelized (a b : Nat) : Nat := (a + (256 - b)) % 256

end IntegerKey

/-- `Padding` tag of `FheString` (`ciphertext.rs`). -/
inductive Padding where
  | None
  | Final
  | Initial
  | InitialAndFinal
deriving DecidableEq, Repr

/-- `FheStrLength`: clear or encrypted true length; the encrypted variant
stores the plaintext of the length ciphertext. -/
inductive FheStrLength where
  | Clear (n : Nat)
  | Encrypted (n : Nat)
deriving DecidableEq, Repr

/-- `FheString`: buffer of encrypted bytes, padding tag, length descriptor. -/
structure FheString where
  content : List Nat
  padding : Padding
  length : FheStrLength
deriving DecidableEq, Repr

namespace StringServerKey

/-- `create_zero`: fresh encryption of 0. -/
def create_zero : Nat := 0

/-- `create_true`: fresh encryption of 1. -/
def create_true : Nat := 1

/-- `compare_char(c1, c2, operator)` from the source. -/
def compare_char (c1 c2 : Nat) (operator : Ordering) : Nat :=
  match operator with
  | Ordering.eq => IntegerKey.eq_parallelized c1 c2
  | Ordering.lt => IntegerKey.le_parallelized c1 c2
  | Ordering.gt => IntegerKey.ge_parallelized c1 c2

/-- `compare_clear_char(c, scalar, operator)` from the source. -/
def compare_clear_char (c : Nat) (scalar : Nat) (operator : Ordering) : Nat :=
  match operator with
  | Ordering.eq => IntegerKey.scalar_eq_parallelized c scalar
  | Ordering.lt => IntegerKey.scalar_le_parallelized c scalar
  | Ordering.gt => IntegerKey.scalar_ge_parallelized c scalar

/-- The `for n in 0..min(len1, len2)` loop of `eq_no_init_padding`:
`result := result ∧ (s1[n] == s2[n])` at each position. -/
def eqLoop : Nat → List Nat → List Nat → Nat
  | result, c1 :: t1, c2 :: t2 =>
      eqLoop (IntegerKey.bitand_parallelized result (compare_char c1 c2 Ordering.eq)) t1 t2
  | result, _, _ => result

/-- `eq_no_init_padding(s1, s2)` from the source (lines 93-121). -/
def eq_no_init_padding (s1 s2 : FheString) : Nat :=
  let result := eqLoop create_true s1.content s2.content
  if s1.content.length > s2.content.length then
    IntegerKey.bitand_parallelized result
      (IntegerKey.scalar_eq_parallelized (s1.content.getD s2.content.length 0) 0)
  else if s2.content.length > s1.content.length then
    IntegerKey.bitand_parallelized result
      (IntegerKey.scalar_eq_parallelized (s2.content.getD s1.content.length 0) 0)
  else result

/-- Per-position test of `starts_with_encrypted_no_init_padding` (the
`match prefix.padding` inside its loop): plain equality when the prefix has
`Padding::None`, and `(s[n] == pfx[n]) ∨ (pfx[n] == 0)` otherwise. -/
def swChar (padding : Padding) (c p : Nat) : Nat :=
  match padding with
  | Padding.None => compare_char c p Ordering.eq
  | _ => IntegerKey.bitor_parallelized (compare_char c p Ordering.eq)
      (IntegerKey.scalar_eq_parallelized p 0)

/-- Loop of `starts_with_encrypted_no_init_padding`. -/
def swLoop (padding : Padding) : Nat → List Nat → List Nat → Nat
  | result, c :: ts, p :: tp =>
      swLoop padding (IntegerKey.bitand_parallelized result (swChar padding c p)) ts tp
  | result, _, _ => result

/-- `starts_with_encrypted_no_init_padding(s, prefix)` (lines 126-167). -/
def starts_with_encrypted_no_init_padding (s pfx : FheString) : Nat :=
  let result := swLoop pfx.padding create_true s.content pfx.content
  if pfx.content.length > s.content.length then
    IntegerKey.bitand_parallelized result
      (IntegerKey.scalar_eq_parallelized (pfx.content.getD s.content.length 0) 0)
  else result

/-- Loop of `eq_clear_no_init_padding` (clear bytes on the right). -/
def eqClearLoop : Nat → List Nat → List Nat → Nat
  | result, c :: t1, b :: t2 =>
      eqClearLoop (IntegerKey.bitand_parallelized result (compare_clear_char c b Ordering.eq)) t1 t2
  | result, _, _ => result

/-- `eq_clear_no_init_padding(s1, s2)` (lines 172-196); the clear string is
modelled by its list of bytes. -/
def eq_clear_no_init_padding (s1 : FheString) (s2 : List Nat) : Nat :=
  if s2.length > s1.content.length then create_zero
  else
    let result := eqClearLoop create_true s1.content s2
    if s1.content.length > s2.length then
      IntegerKey.bitand_parallelized result
        (IntegerKey.scalar_eq_parallelized (s1.content.getD s2.length 0) 0)
    else result

/-- `starts_with_clear_no_init_padding(s, prefix)` (lines 201-219): just the
conjunction loop over `0..min(|s|, |prefix|)`. -/
def starts_with_clear_no_init_padding (s : FheString) (pfx : List Nat) : Nat :=
  eqClearLoop create_true s.content pfx

/-- Loop of `compare_no_init_padding` threading
`(result, equal_up_to_n_minus_1)`; returns `(result, equal_up_to_n)`. -/
def compareLoop (operator : Ordering) :
    Nat → Nat → List Nat → List Nat → Nat × Nat
  | result, equal_up_to_n_minus_1, c1 :: t1, c2 :: t2 =>
      let equal_up_to_n :=
        IntegerKey.bitand_parallelized equal_up_to_n_minus_1 (compare_char c1 c2 Ordering.eq)
      compareLoop operator
        (IntegerKey.cmux_parallelized
          (IntegerKey.bitand_parallelized equal_up_to_n_minus_1
            (IntegerKey.bitnot_parallelized equal_up_to_n))
          (compare_char c1 c2 operator) result)
        equal_up_to_n t1 t2
  | result, equal_up_to_n, _, _ => (result, equal_up_to_n)

/-- `compare_no_init_padding(s1, s2, operator)` (lines 308-365). -/
def compare_no_init_padding (s1 s2 : FheString) (operator : Ordering) : Nat :=
  let st := compareLoop operator create_zero create_true s1.content s2.content
  if s1.content.length > s2.content.length then
    match operator with
    | Ordering.gt => IntegerKey.bitor_parallelized st.1 st.2
    | _ => IntegerKey.bitor_parallelized st.1
        (IntegerKey.bitand_parallelized st.2
          (IntegerKey.scalar_eq_parallelized (s1.content.getD s2.content.length 0) 0))
  else if s2.content.length > s1.content.length then
    match operator with
    | Ordering.lt => IntegerKey.bitor_parallelized st.1 st.2
    | _ => IntegerKey.bitor_parallelized st.1
        (IntegerKey.bitand_parallelized st.2
          (IntegerKey.scalar_eq_parallelized (s2.content.getD s1.content.length 0) 0))
  else IntegerKey.bitor_parallelized st.1 st.2

/-- Loop of `compare_clear_no_init_padding`. -/
def compareClearLoop (operator : Ordering) :
    Nat → Nat → List Nat → List Nat → Nat × Nat
  | result, equal_up_to_n_minus_1, c :: t1, b :: t2 =>
      let equal_up_to_n :=
        IntegerKey.bitand_parallelized equal_up_to_n_minus_1 (compare_clear_char c b Ordering.eq)
      compareClearLoop operator
        (IntegerKey.cmux_parallelized
          (IntegerKey.bitand_parallelized equal_up_to_n_minus_1
            (IntegerKey.bitnot_parallelized equal_up_to_n))
          (compare_clear_char c b operator) result)
        equal_up_to_n t1 t2
  | result, equal_up_to_n, _, _ => (result, equal_up_to_n)

/-- `compare_clear_no_init_padding(s1, s2, operator)` (lines 368-421); note
the asymmetric tail: when the clear string is strictly longer, `Greater`
returns `result` unchanged. -/
def compare_clear_no_init_padding (s1 : FheString) (s2 : List Nat) (operator : Ordering) : Nat :=
  let st := compareClearLoop operator create_zero create_true s1.content s2
  if s1.content.length > s2.length then
    match operator with
    | Ordering.gt => IntegerKey.bitor_parallelized st.1 st.2
    | _ => IntegerKey.bitor_parallelized st.1
        (IntegerKey.bitand_parallelized st.2
          (IntegerKey.scalar_eq_parallelized (s1.content.getD s2.length 0) 0))
  else if s2.length > s1.content.length then
    match operator with
    | Ordering.lt => IntegerKey.bitor_parallelized st.1 st.2
    | _ => st.1
  else IntegerKey.bitor_parallelized st.1 st.2

/-- Body of the `for c in content_slice` loop of `pop_first_non_zero_char`,
threading `(result, previous_is_padding_zero)` and rebuilding the mutated
slice; returns `(result, new slice)`. -/
def popLoop : Nat → Nat → List Nat → Nat × List Nat
  | result, _, [] => (result, [])
  | result, previous_is_padding_zero, c :: t =>
      let current_is_zero := IntegerKey.scalar_eq_parallelized c 0
      let first_non_null :=
        IntegerKey.bitand_parallelized previous_is_padding_zero
          (IntegerKey.bitnot_parallelized current_is_zero)
      let to_sub := IntegerKey.mul_parallelized c first_non_null
      let result2 := IntegerKey.add_parallelized result to_sub
      let c2 := IntegerKey.sub_parallelized c to_sub
      let st := popLoop result2
        (IntegerKey.bitand_parallelized previous_is_padding_zero current_is_zero) t
      (st.1, c2 :: st.2)

/-- `pop_first_non_zero_char(content_slice)` (lines 468-496): returns the
popped character and the updated slice. -/
def pop_first_non_zero_char (content_slice : List Nat) : Nat × List Nat :=
  popLoop create_zero create_true content_slice

/-- The push loop shared by both normalizers: `k` iterations, each popping
from a view of the working buffer shifted one further to the right. -/
def removeLoop : Nat → List Nat → List Nat
  | 0, _ => []
  | k + 1, prev_content_slice =>
      let st := pop_first_non_zero_char prev_content_slice
      st.1 :: removeLoop k (st.2.drop 1)

/-- `remove_initial_padding(s)` (lines 513-525): `s.content.len()` pops. -/
def remove_initial_padding (s : FheString) : FheString :=
  { content := removeLoop s.content.length s.content
    padding := Padding.Final
    length := s.length }

/-- `remove_initial_padding_assign(s)` (lines 500-509), functionally: the
Rust loop is `for _ in 1..s.content.len()`, i.e. `len - 1` pops, and then
sets `padding := Final` keeping the `length` field. -/
def remove_initial_padding_assign (s : FheString) : FheString :=
  { s with
    content := removeLoop (s.content.length - 1) s.content
    padding := Padding.Final }

/-- Padding dispatch of `eq` (lines 16-30). -/
def eqDispatch (s1 s2 : FheString) : Nat :=
  match s1.padding, s2.padding with
  | Padding.None, Padding.None
  | Padding.None, Padding.Final
  | Padding.Final, Padding.None
  | Padding.Final, Padding.Final => eq_no_init_padding s1 s2
  | Padding.None, _
  | Padding.Final, _ => eq_no_init_padding s1 (remove_initial_padding s2)
  | _, Padding.None
  | _, Padding.Final => eq_no_init_padding (remove_initial_padding s1) s2
  | _, _ => eq_no_init_padding (remove_initial_padding s1) (remove_initial_padding s2)

/-- `eq(s1, s2)` (lines 8-31): clear-length fast path, then dispatch. -/
def eq (s1 s2 : FheString) : Nat :=
  match s1.length, s2.length with
  | FheStrLength.Clear l1, FheStrLength.Clear l2 =>
      if l1 ≠ l2 then create_zero else eqDispatch s1 s2
  | _, _ => eqDispatch s1 s2

/-- Padding dispatch of `starts_with_encrypted` (lines 47-61). -/
def swDispatch (s pfx : FheString) : Nat :=
  match s.padding, pfx.padding with
  | Padding.None, Padding.None
  | Padding.None, Padding.Final
  | Padding.Final, Padding.None
  | Padding.Final, Padding.Final => starts_with_encrypted_no_init_padding s pfx
  | Padding.None, _
  | Padding.Final, _ => starts_with_encrypted_no_init_padding s (remove_initial_padding pfx)
  | _, Padding.None
  | _, Padding.Final => starts_with_encrypted_no_init_padding (remove_initial_padding s) pfx
  | _, _ => starts_with_encrypted_no_init_padding (remove_initial_padding s)
      (remove_initial_padding pfx)

/-- `starts_with_encrypted(s, prefix)` (lines 35-62).  The Rust guarded
match arms fall through in order, which the nested `if`s reproduce. -/
def starts_with_encrypted (s pfx : FheString) : Nat :=
  match s.length, pfx.length with
  | FheStrLength.Clear l, FheStrLength.Clear l_pfx =>
      if l_pfx > l then create_zero
      else if l_pfx > s.content.length then create_zero
      else swDispatch s pfx
  | _, FheStrLength.Clear l_pfx =>
      if l_pfx > s.content.length then create_zero else swDispatch s pfx
  | _, _ => swDispatch s pfx

/-- Padding dispatch of `eq_clear` (lines 71-74). -/
def eqClearDispatch (s1 : FheString) (s2 : List Nat) : Nat :=
  match s1.padding with
  | Padding.None | Padding.Final => eq_clear_no_init_padding s1 s2
  | _ => eq_clear_no_init_padding (remove_initial_padding s1) s2

/-- `eq_clear(s1, s2)` (lines 66-75). -/
def eq_clear (s1 : FheString) (s2 : List Nat) : Nat :=
  match s1.length with
  | FheStrLength.Clear l1 => if l1 ≠ s2.length then create_zero else eqClearDispatch s1 s2
  | _ => eqClearDispatch s1 s2

/-- Padding dispatch of `starts_with_clear` (lines 85-88). -/
def swcDispatch (s : FheString) (pfx : List Nat) : Nat :=
  match s.padding with
  | Padding.None | Padding.Final => starts_with_clear_no_init_padding s pfx
  | _ => starts_with_clear_no_init_padding (remove_initial_padding s) pfx

/-- `starts_with_clear(s, prefix)` (lines 79-89); guarded match arms with
fall-through, as in the source. -/
def starts_with_clear (s : FheString) (pfx : List Nat) : Nat :=
  match s.length with
  | FheStrLength.Clear length =>
      if pfx.length > length then create_zero
      else if pfx.length > s.content.length then create_zero
      else swcDispatch s pfx
  | _ =>
      if pfx.length > s.content.length then create_zero else swcDispatch s pfx

/-- `compare(s1, s2, operator)` (lines 262-284): padding dispatch only. -/
def compare (s1 s2 : FheString) (operator : Ordering) : Nat :=
  match s1.padding, s2.padding with
  | Padding.None, Padding.None
  | Padding.None, Padding.Final
  | Padding.Final, Padding.None
  | Padding.Final, Padding.Final => compare_no_init_padding s1 s2 operator
  | Padding.None, _
  | Padding.Final, _ => compare_no_init_padding s1 (remove_initial_padding s2) operator
  | _, Padding.None
  | _, Padding.Final => compare_no_init_padding (remove_initial_padding s1) s2 operator
  | _, _ => compare_no_init_padding (remove_initial_padding s1)
      (remove_initial_padding s2) operator

/-- `compare_clear(s1, s2, operator)` (lines 295-305). -/
def compare_clear (s1 : FheString) (s2 : List Nat) (operator : Ordering) : Nat :=
  match s1.padding with
  | Padding.None | Padding.Final => compare_clear_no_init_padding s1 s2 operator
  | _ => compare_clear_no_init_padding (remove_initial_padding s1) s2 operator

/-- `le(s1, s2)` (lines 225-227). -/
def le (s1 s2 : FheString) : Nat := compare s1 s2 Ordering.lt

/-- `ge(s1, s2)` (lines 233-235). -/
def ge (s1 s2 : FheString) : Nat := compare s1 s2 Ordering.gt

/-- `le_clear(s1, s2)` (lines 241-243). -/
def le_clear (s1 : FheString) (s2 : List Nat) : Nat := compare_clear s1 s2 Ordering.lt

/-- `ge_clear(s1, s2)` (lines 249-251). -/
def ge_clear (s1 : FheString) (s2 : List Nat) : Nat := compare_clear s1 s2 Ordering.gt

/-- `eqDispatch` instrumented with the number of kernel invocations and of
`remove_initial_padding` invocations: `(result, kernel calls, normalizer calls)`. -/
def eqDispatchInstr (s1 s2 : FheString) : Nat × Nat × Nat :=
  match s1.padding, s2.padding with
  | Padding.None, Padding.None
  | Padding.None, Padding.Final
  | Padding.Final, Padding.None
  | Padding.Final, Padding.Final => (eq_no_init_padding s1 s2, 1, 0)
  | Padding.None, _
  | Padding.Final, _ => (eq_no_init_padding s1 (remove_initial_padding s2), 1, 1)
  | _, Padding.None
  | _, Padding.Final => (eq_no_init_padding (remove_initial_padding s1) s2, 1, 1)
  | _, _ => (eq_no_init_padding (remove_initial_padding s1) (remove_initial_padding s2), 1, 2)

/-- `eq` instrumented with call counters, same control flow as `eq`. -/
def eqInstr (s1 s2 : FheString) : Nat × Nat × Nat :=
  match s1.length, s2.length with
  | FheStrLength.Clear l1, FheStrLength.Clear l2 =>
      if l1 ≠ l2 then (create_zero, 0, 0) else eqDispatchInstr s1 s2
  | _, _ => eqDispatchInstr s1 s2

/-- `eqClearDispatch` instrumented with call counters. -/
def eqClearDispatchInstr (s1 : FheString) (s2 : List Nat) : Nat × Nat × Nat :=
  match s1.padding with
  | Padding.None | Padding.Final => (eq_clear_no_init_padding s1 s2, 1, 0)
  | _ => (eq_clear_no_init_padding (remove_initial_padding s1) s2, 1, 1)

/-- `eq_clear` instrumented with call counters. -/
def eqClearInstr (s1 : FheString) (s2 : List Nat) : Nat × Nat × Nat :=
  match s1.length with
  | FheStrLength.Clear l1 =>
      if l1 ≠ s2.length then (create_zero, 0, 0) else eqClearDispatchInstr s1 s2
  | _ => eqClearDispatchInstr s1 s2

/-- `swDispatch` instrumented with call counters. -/
def swDispatchInstr (s pfx : FheString) : Nat × Nat × Nat :=
  match s.padding, pfx.padding with
  | Padding.None, Padding.None
  | Padding.None, Padding.Final
  | Padding.Final, Padding.None
  | Padding.Final, Padding.Final => (starts_with_encrypted_no_init_padding s pfx, 1, 0)
  | Padding.None, _
  | Padding.Final, _ => (starts_with_encrypted_no_init_padding s (remove_initial_padding pfx), 1, 1)
  | _, Padding.None
  | _, Padding.Final => (starts_with_encrypted_no_init_padding (remove_initial_padding s) pfx, 1, 1)
  | _, _ => (starts_with_encrypted_no_init_padding (remove_initial_padding s)
      (remove_initial_padding pfx), 1, 2)

/-- `starts_with_encrypted` instrumented with call counters. -/
def swInstr (s pfx : FheString) : Nat × Nat × Nat :=
  match s.length, pfx.length with
  | FheStrLength.Clear l, FheStrLength.Clear l_pfx =>
      if l_pfx > l then (create_zero, 0, 0)
      else if l_pfx > s.content.length then (create_zero, 0, 0)
      else swDispatchInstr s pfx
  | _, FheStrLength.Clear l_pfx =>
      if l_pfx > s.content.length then (create_zero, 0, 0) else swDispatchInstr s pfx
  | _, _ => swDispatchInstr s pfx

end StringServerKey

/-! ## Specification-side notions

The plaintext of an `FheString` is the subsequence of its non-zero bytes
(spec §3: "The true plaintext is the sub-sequence of non-zero bytes in
their original order"); the padding invariant says the zero bytes form a
prefix, a suffix, or both, according to the tag.  All these notions are
Bool-valued, so every theorem can be checked on concrete inputs. -/

/-- Booleans as 0/1 plaintexts. -/
def b2n : Bool → Nat
  | true => 1
  | false => 0

@[simp] theorem b2n_true : b2n true = 1 := rfl

@[simp] theorem b2n_false : b2n false = 0 := rfl

/-- The non-zero bytes of a buffer, in order: its decrypted plaintext. -/
def nonzeros (l : List Nat) : List Nat := l.filter (fun c => c != 0)

/-- Decrypted plaintext of an encrypted string. -/
def decode (s : FheString) : List Nat := nonzeros s.content

/-- All bytes of the buffer are zero. -/
def allZ (l : List Nat) : Bool := l.all (fun c => c == 0)

/-- All bytes of the buffer are non-zero. -/
def allNZ (l : List Nat) : Bool := l.all (fun c => c != 0)

/-- Zeros occupy only a (possibly empty) trailing suffix:
the shape `Padding::None` and `Padding::Final` permit. -/
def fpB : List Nat → Bool
  | [] => true
  | c :: t => if c == 0 then allZ t else fpB t

/-- Zeros occupy only a leading prefix (`Padding::Initial`). -/
def ipB : List Nat → Bool
  | [] => true
  | c :: t => if c == 0 then ipB t else allNZ t

/-- Zeros at both ends only (`Padding::InitialAndFinal`). -/
def ifpB : List Nat → Bool
  | [] => true
  | c :: t => if c == 0 then ifpB t else fpB t

/-- The padding invariant demanded by each tag (spec §3). -/
def padOk : Padding → List Nat → Bool
  | Padding.None, l => allNZ l
  | Padding.Final, l => fpB l
  | Padding.Initial, l => ipB l
  | Padding.InitialAndFinal, l => ifpB l

/-- Every byte fits the 8-bit message space of an `FheAsciiChar`. -/
def contentBounded (l : List Nat) : Bool := l.all (fun c => c < 256)

/-- The length descriptor records the true (unpadded) length. -/
def lenOk : FheStrLength → List Nat → Bool
  | FheStrLength.Clear n, l => n == (nonzeros l).length
  | FheStrLength.Encrypted n, l => n == (nonzeros l).length

/-- Well-formed encrypted string: bytes in range, zeros placed as the
padding tag announces, length descriptor equal to the true length. -/
def wellFormed (s : FheString) : Bool :=
  contentBounded s.content && padOk s.padding s.content && lenOk s.length s.content

/-- Byte-lexicographic `≤` on plaintexts, a strict prefix ordered before
its extensions (spec §4.3.5). -/
def lexLe : List Nat → List Nat → Bool
  | [], _ => true
  | _ :: _, [] => false
  | x :: a, y :: b => if x < y then true else if y < x then false else lexLe a b

/-- `isPrefB p l`: `p` is a prefix of `l` (byte-prefix relation). -/
def isPrefB : List Nat → List Nat → Bool
  | [], _ => true
  | _ :: _, [] => false
  | x :: a, y :: b => (x == y) && isPrefB a b

/-- Zero out the first non-zero byte of a buffer, if any. -/
def zeroFirst : List Nat → List Nat
  | [] => []
  | c :: t => if c == 0 then c :: zeroFirst t else 0 :: t

/-! ## Bool-valued mirrors of the kernels

Each homomorphic kernel only ever produces the plaintexts 0 and 1; the
following Bool-valued functions compute the same traces, and the bridge
lemmas below equate the kernels with `b2n` of their mirror. -/

/-- Mirror of `eqLoop`/`eqClearLoop`: positionwise equality over the common
prefix of the two buffers. -/
def prefEq : List Nat → List Nat → Bool
  | x :: a, y :: b => (x == y) && prefEq a b
  | _, _ => true

/-- Mirror of `eq_no_init_padding` on raw buffers. -/
def eqRef (a b : List Nat) : Bool :=
  prefEq a b &&
    (if a.length > b.length then a.getD b.length 0 == 0
     else if b.length > a.length then b.getD a.length 0 == 0
     else true)

/-- Mirror of `eq_clear_no_init_padding` on raw buffers. -/
def eqClearRef (a t : List Nat) : Bool :=
  if t.length > a.length then false
  else prefEq a t && (if a.length > t.length then a.getD t.length 0 == 0 else true)

/-- Mirror of `swChar`. -/
def swCharB (padding : Padding) (c p : Nat) : Bool :=
  match padding with
  | Padding.None => c == p
  | _ => (c == p) || (p == 0)

/-- Mirror of `swLoop`. -/
def swPrefB (padding : Padding) : List Nat → List Nat → Bool
  | c :: ts, p :: tp => swCharB padding c p && swPrefB padding ts tp
  | _, _ => true

/-- Mirror of `starts_with_encrypted_no_init_padding` on raw buffers. -/
def swRefB (padding : Padding) (a p : List Nat) : Bool :=
  swPrefB padding a p && (if p.length > a.length then p.getD a.length 0 == 0 else true)

/-- Mirror of `compare_char`/`compare_clear_char` (`lt` and `gt` are the
inclusive operators `≤`, `≥`). -/
def cmpCharB (operator : Ordering) (a b : Nat) : Bool :=
  match operator with
  | Ordering.eq => a == b
  | Ordering.lt => decide (a ≤ b)
  | Ordering.gt => decide (b ≤ a)

/-- Mirror of `compareLoop`/`compareClearLoop`. -/
def cmpLoopB (operator : Ordering) : Bool → Bool → List Nat → List Nat → Bool × Bool
  | result, ep, x :: ta, y :: tb =>
      cmpLoopB operator
        (if ep && !(ep && (x == y)) then cmpCharB operator x y else result)
        (ep && (x == y)) ta tb
  | result, ep, _, _ => (result, ep)

/-- Mirror of `compare_no_init_padding` on raw buffers. -/
def cmpRefB (operator : Ordering) (a b : List Nat) : Bool :=
  let st := cmpLoopB operator false true a b
  if a.length > b.length then
    match operator with
    | Ordering.gt => st.1 || st.2
    | _ => st.1 || (st.2 && (a.getD b.length 0 == 0))
  else if b.length > a.length then
    match operator with
    | Ordering.lt => st.1 || st.2
    | _ => st.1 || (st.2 && (b.getD a.length 0 == 0))
  else st.1 || st.2

/-- Mirror of `compare_clear_no_init_padding` on raw buffers. -/
def cmpClearRefB (operator : Ordering) (a t : List Nat) : Bool :=
  let st := cmpLoopB operator false true a t
  if a.length > t.length then
    match operator with
    | Ordering.gt => st.1 || st.2
    | _ => st.1 || (st.2 && (a.getD t.length 0 == 0))
  else if t.length > a.length then
    match operator with
    | Ordering.lt => st.1 || st.2
    | _ => st.1
  else st.1 || st.2

/-! ### Bridge lemmas: homomorphic 0/1 traces equal `b2n` of the mirrors -/

theorem bitand_b2n (p q : Bool) :
    IntegerKey.bitand_parallelized (b2n p) (b2n q) = b2n (p && q) := by
  cases p <;> cases q <;> decide

theorem bitor_b2n (p q : Bool) :
    IntegerKey.bitor_parallelized (b2n p) (b2n q) = b2n (p || q) := by
  cases p <;> cases q <;> decide

theorem bitand_bitnot_b2n (p q : Bool) :
    IntegerKey.bitand_parallelized (b2n p) (IntegerKey.bitnot_parallelized (b2n q)) =
      b2n (p && !q) := by
  cases p <;> cases q <;> decide

theorem cmux_b2n (p : Bool) (x y : Nat) :
    IntegerKey.cmux_parallelized (b2n p) x y = if p then x else y := by
  cases p <;> rfl

theorem eq_parallelized_b2n (a b : Nat) :
    IntegerKey.eq_parallelized a b = b2n (a == b) := by
  unfold IntegerKey.eq_parallelized
  by_cases h : a = b
  · rw [if_pos h, beq_iff_eq.mpr h, b2n_true]
  · rw [if_neg h, beq_eq_false_iff_ne.mpr h, b2n_false]

theorem scalar_eq_parallelized_b2n (a s : Nat) :
    IntegerKey.scalar_eq_parallelized a s = b2n (a == s) := by
  unfold IntegerKey.scalar_eq_parallelized
  by_cases h : a = s
  · rw [if_pos h, beq_iff_eq.mpr h, b2n_true]
  · rw [if_neg h, beq_eq_false_iff_ne.mpr h, b2n_false]

theorem le_parallelized_b2n (a b : Nat) :
    IntegerKey.le_parallelized a b = b2n (decide (a ≤ b)) := by
  unfold IntegerKey.le_parallelized
  by_cases h : a ≤ b
  · rw [if_pos h, decide_eq_true h, b2n_true]
  · rw [if_neg h, decide_eq_false h, b2n_false]

theorem ge_parallelized_b2n (a b : Nat) :
    IntegerKey.ge_parallelized a b = b2n (decide (b ≤ a)) := by
  unfold IntegerKey.ge_parallelized
  by_cases h : b ≤ a
  · rw [if_pos h, decide_eq_true h, b2n_true]
  · rw [if_neg h, decide_eq_false h, b2n_false]

theorem scalar_le_parallelized_b2n (a s : Nat) :
    IntegerKey.scalar_le_parallelized a s = b2n (decide (a ≤ s)) := by
  unfold IntegerKey.scalar_le_parallelized
  by_cases h : a ≤ s
  · rw [if_pos h, decide_eq_true h, b2n_true]
  · rw [if_neg h, decide_eq_false h, b2n_false]

theorem scalar_ge_parallelized_b2n (a s : Nat) :
    IntegerKey.scalar_ge_parallelized a s = b2n (decide (s ≤ a)) := by
  unfold IntegerKey.scalar_ge_parallelized
  by_cases h : s ≤ a
  · rw [if_pos h, decide_eq_true h, b2n_true]
  · rw [if_neg h, decide_eq_false h, b2n_false]

theorem compare_char_b2n (c1 c2 : Nat) (operator : Ordering) :
    StringServerKey.compare_char c1 c2 operator = b2n (cmpCharB operator c1 c2) := by
  cases operator
  · exact le_parallelized_b2n c1 c2
  · exact eq_parallelized_b2n c1 c2
  · exact ge_parallelized_b2n c1 c2

theorem compare_clear_char_b2n (c b : Nat) (operator : Ordering) :
    StringServerKey.compare_clear_char c b operator = b2n (cmpCharB operator c b) := by
  cases operator
  · exact scalar_le_parallelized_b2n c b
  · exact scalar_eq_parallelized_b2n c b
  · exact scalar_ge_parallelized_b2n c b

theorem cmpCharB_eq (x y : Nat) : cmpCharB Ordering.eq x y = (x == y) := rfl

theorem eqLoop_b2n : ∀ (a b : List Nat) (r : Bool),
    StringServerKey.eqLoop (b2n r) a b = b2n (r && prefEq a b)
  | [], b, r => by cases b <;> simp [StringServerKey.eqLoop, prefEq]
  | _ :: _, [], r => by simp [StringServerKey.eqLoop, prefEq]
  | x :: a, y :: b, r => by
      rw [StringServerKey.eqLoop, compare_char_b2n, cmpCharB_eq, bitand_b2n,
        eqLoop_b2n a b, prefEq, ← Bool.and_assoc]

theorem eqClearLoop_b2n : ∀ (a t : List Nat) (r : Bool),
    StringServerKey.eqClearLoop (b2n r) a t = b2n (r && prefEq a t)
  | [], t, r => by cases t <;> simp [StringServerKey.eqClearLoop, prefEq]
  | _ :: _, [], r => by simp [StringServerKey.eqClearLoop, prefEq]
  | x :: a, y :: t, r => by
      rw [StringServerKey.eqClearLoop, compare_clear_char_b2n, cmpCharB_eq, bitand_b2n,
        eqClearLoop_b2n a t, prefEq, ← Bool.and_assoc]

theorem swChar_b2n (padding : Padding) (c p : Nat) :
    StringServerKey.swChar padding c p = b2n (swCharB padding c p) := by
  cases padding <;>
    simp [StringServerKey.swChar, swCharB, compare_char_b2n, cmpCharB_eq,
      scalar_eq_parallelized_b2n, bitor_b2n]

theorem swLoop_b2n (padding : Padding) : ∀ (a p : List Nat) (r : Bool),
    StringServerKey.swLoop padding (b2n r) a p = b2n (r && swPrefB padding a p)
  | [], p, r => by cases p <;> simp [StringServerKey.swLoop, swPrefB]
  | _ :: _, [], r => by simp [StringServerKey.swLoop, swPrefB]
  | c :: a, q :: p, r => by
      rw [StringServerKey.swLoop, swChar_b2n, bitand_b2n, swLoop_b2n padding a p, swPrefB,
        ← Bool.and_assoc]

theorem compareLoop_b2n (operator : Ordering) : ∀ (a b : List Nat) (r e : Bool),
    StringServerKey.compareLoop operator (b2n r) (b2n e) a b =
      (b2n (cmpLoopB operator r e a b).1, b2n (cmpLoopB operator r e a b).2)
  | [], b, r, e => by cases b <;> simp [StringServerKey.compareLoop, cmpLoopB]
  | _ :: _, [], r, e => by simp [StringServerKey.compareLoop, cmpLoopB]
  | x :: a, y :: b, r, e => by
      rw [StringServerKey.compareLoop]
      simp only [compare_char_b2n, cmpCharB_eq, bitand_b2n, bitand_bitnot_b2n, cmux_b2n]
      have hres : (if (e && !(e && (x == y))) then b2n (cmpCharB operator x y) else b2n r) =
          b2n (if (e && !(e && (x == y))) then cmpCharB operator x y else r) := by
        split <;> rfl
      rw [hres, compareLoop_b2n operator a b, cmpLoopB]

theorem compareClearLoop_b2n (operator : Ordering) : ∀ (a t : List Nat) (r e : Bool),
    StringServerKey.compareClearLoop operator (b2n r) (b2n e) a t =
      (b2n (cmpLoopB operator r e a t).1, b2n (cmpLoopB operator r e a t).2)
  | [], t, r, e => by cases t <;> simp [StringServerKey.compareClearLoop, cmpLoopB]
  | _ :: _, [], r, e => by simp [StringServerKey.compareClearLoop, cmpLoopB]
  | x :: a, y :: t, r, e => by
      rw [StringServerKey.compareClearLoop]
      simp only [compare_clear_char_b2n, cmpCharB_eq, bitand_b2n, bitand_bitnot_b2n, cmux_b2n]
      have hres : (if (e && !(e && (x == y))) then b2n (cmpCharB operator x y) else b2n r) =
          b2n (if (e && !(e && (x == y))) then cmpCharB operator x y else r) := by
        split <;> rfl
      rw [hres, compareClearLoop_b2n operator a t, cmpLoopB]


/-! ### Structural facts about padding shapes and plaintexts -/

theorem allZ_iff (l : List Nat) : allZ l = true ↔ ∀ c ∈ l, c = 0 := by
  simp [allZ]

theorem allNZ_iff (l : List Nat) : allNZ l = true ↔ ∀ c ∈ l, c ≠ 0 := by
  simp [allNZ]

theorem contentBounded_iff (l : List Nat) :
    contentBounded l = true ↔ ∀ c ∈ l, c < 256 := by
  simp [contentBounded]

@[simp] theorem nonzeros_nil : nonzeros [] = [] := rfl

theorem nonzeros_cons_zero (t : List Nat) : nonzeros (0 :: t) = nonzeros t := by
  simp [nonzeros]

theorem nonzeros_cons_ne (c : Nat) (t : List Nat) (h : c ≠ 0) :
    nonzeros (c :: t) = c :: nonzeros t := by
  simp [nonzeros, List.filter_cons, h]

theorem nonzeros_append (a b : List Nat) :
    nonzeros (a ++ b) = nonzeros a ++ nonzeros b := by
  simp [nonzeros, List.filter_append]

theorem nonzeros_allZ (l : List Nat) (h : allZ l = true) : nonzeros l = [] := by
  rw [nonzeros, List.filter_eq_nil_iff]
  intro a ha
  simp [(allZ_iff l).mp h a ha]

theorem allZ_replicate (k : Nat) : allZ (List.replicate k 0) = true := by
  rw [allZ_iff]
  intro c hc
  exact (List.eq_of_mem_replicate hc)

theorem nonzeros_replicate (k : Nat) : nonzeros (List.replicate k 0) = [] :=
  nonzeros_allZ _ (allZ_replicate k)

theorem allNZ_nonzeros (l : List Nat) : allNZ (nonzeros l) = true := by
  rw [allNZ_iff]
  intro c hc
  have := List.of_mem_filter hc
  simpa using this

theorem nonzeros_of_allNZ (l : List Nat) (h : allNZ l = true) : nonzeros l = l := by
  rw [nonzeros, List.filter_eq_self]
  intro a ha
  simpa using (allNZ_iff l).mp h a ha

theorem nonzeros_idem (l : List Nat) : nonzeros (nonzeros l) = nonzeros l :=
  nonzeros_of_allNZ _ (allNZ_nonzeros l)

theorem nonzeros_length_le (l : List Nat) : (nonzeros l).length ≤ l.length :=
  List.length_filter_le _ l

theorem allZ_getD (l : List Nat) (i : Nat) (h : allZ l = true) : l.getD i 0 = 0 := by
  induction l generalizing i with
  | nil => simp
  | cons c t ih =>
      rw [allZ_iff] at h
      cases i with
      | zero => simpa using h c (by simp)
      | succ j =>
          rw [List.getD_cons_succ]
          exact ih j ((allZ_iff t).mpr fun d hd => h d (by simp [hd]))

theorem allZ_fpB (l : List Nat) (h : allZ l = true) : fpB l = true := by
  cases l with
  | nil => rfl
  | cons c t =>
      rw [allZ_iff] at h
      have hc : c = 0 := h c (by simp)
      subst hc
      have ht : allZ t = true := (allZ_iff t).mpr fun d hd => h d (by simp [hd])
      exact ht

theorem fpB_zero_head (t : List Nat) (h : fpB (0 :: t) = true) : allZ t = true := by
  simpa [fpB] using h

theorem fpB_tail (c : Nat) (t : List Nat) (h : fpB (c :: t) = true) : fpB t = true := by
  by_cases hc : c = 0
  · subst hc
    exact allZ_fpB t (fpB_zero_head t h)
  · rw [fpB, if_neg (by simpa using hc)] at h
    exact h

theorem fpB_cons_ne (c : Nat) (t : List Nat) (h : c ≠ 0) :
    fpB (c :: t) = fpB t := by
  rw [fpB, if_neg (by simpa using h)]

theorem allNZ_fpB (l : List Nat) (h : allNZ l = true) : fpB l = true := by
  induction l with
  | nil => rfl
  | cons c t ih =>
      rw [allNZ_iff] at h
      rw [fpB_cons_ne c t (h c (by simp))]
      exact ih ((allNZ_iff t).mpr fun d hd => h d (by simp [hd]))

theorem fpB_replicate (k : Nat) : fpB (List.replicate k 0) = true :=
  allZ_fpB _ (allZ_replicate k)

theorem fpB_append_replicate (w : List Nat) (k : Nat) (h : allNZ w = true) :
    fpB (w ++ List.replicate k 0) = true := by
  induction w with
  | nil => simpa using fpB_replicate k
  | cons c t ih =>
      rw [allNZ_iff] at h
      rw [List.cons_append, fpB_cons_ne c _ (h c (by simp))]
      exact ih ((allNZ_iff t).mpr fun d hd => h d (by simp [hd]))

/-! ### Facts about the byte-lexicographic order and the prefix relation -/

theorem lexLe_refl : ∀ a : List Nat, lexLe a a = true
  | [] => rfl
  | x :: a => by simp [lexLe, lexLe_refl a]

theorem lexLe_total : ∀ a b : List Nat, lexLe a b = true ∨ lexLe b a = true
  | [], _ => Or.inl rfl
  | _ :: _, [] => Or.inr rfl
  | x :: a, y :: b => by
      rcases Nat.lt_trichotomy x y with h | h | h
      · left
        simp [lexLe, h]
      · subst h
        rcases lexLe_total a b with h2 | h2
        · left
          simp [lexLe, h2]
        · right
          simp [lexLe, h2]
      · right
        simp [lexLe, h]

theorem lexLe_antisymm : ∀ a b : List Nat, lexLe a b = true → lexLe b a = true → a = b
  | [], [], _, _ => rfl
  | [], _ :: _, _, h2 => by simp [lexLe] at h2
  | _ :: _, [], h1, _ => by simp [lexLe] at h1
  | x :: a, y :: b, h1, h2 => by
      rcases Nat.lt_trichotomy x y with h | h | h
      · rw [lexLe, if_neg (Nat.lt_asymm h), if_pos h] at h2
        exact absurd h2 (by simp)
      · subst h
        simp only [lexLe, lt_self_iff_false, if_false] at h1 h2
        rw [lexLe_antisymm a b h1 h2]
      · rw [lexLe, if_neg (Nat.lt_asymm h), if_pos h] at h1
        exact absurd h1 (by simp)

theorem isPrefB_iff : ∀ p l : List Nat, isPrefB p l = true ↔ ∃ t, p ++ t = l
  | [], l => by simp [isPrefB]
  | x :: p, [] => by simp [isPrefB]
  | x :: p, y :: l => by
      simp [isPrefB, isPrefB_iff p l, and_assoc]

theorem isPrefB_length (p l : List Nat) (h : isPrefB p l = true) :
    p.length ≤ l.length := by
  obtain ⟨t, ht⟩ := (isPrefB_iff p l).mp h
  subst ht
  simp

/-! ### The oblivious pop-and-zero primitive and the padding normalizer -/

theorem land_zero_left (n : Nat) : IntegerKey.bitand_parallelized 0 n = 0 := by
  simp [IntegerKey.bitand_parallelized, Nat.land]

theorem mul_parallelized_zero (c : Nat) : IntegerKey.mul_parallelized c 0 = 0 := by
  simp [IntegerKey.mul_parallelized]

theorem add_parallelized_zero (r : Nat) (h : r < 256) :
    IntegerKey.add_parallelized r 0 = r := by
  simp [IntegerKey.add_parallelized, Nat.mod_eq_of_lt h]

theorem sub_parallelized_zero (c : Nat) (h : c < 256) :
    IntegerKey.sub_parallelized c 0 = c := by
  simp only [IntegerKey.sub_parallelized, Nat.sub_zero, Nat.add_mod_right]
  exact Nat.mod_eq_of_lt h

theorem zeroFirst_cons_zero (t : List Nat) : zeroFirst (0 :: t) = 0 :: zeroFirst t := by
  simp [zeroFirst]

theorem zeroFirst_cons_ne (c : Nat) (t : List Nat) (h : c ≠ 0) :
    zeroFirst (c :: t) = 0 :: t := by
  simp [zeroFirst, h]

/-- Once `previous_is_padding_zero` encrypts 0, the loop of
`pop_first_non_zero_char` changes nothing. -/
theorem popLoop_prev_zero : ∀ (t : List Nat) (r : Nat), r < 256 → (∀ c ∈ t, c < 256) →
    StringServerKey.popLoop r 0 t = (r, t)
  | [], _, _, _ => rfl
  | c :: t, r, hr, hc => by
      have hrec := popLoop_prev_zero t r hr (fun d hd => hc d (by simp [hd]))
      have h1 : IntegerKey.add_parallelized r 0 = r := add_parallelized_zero r hr
      have h2 : IntegerKey.sub_parallelized c 0 = c :=
        sub_parallelized_zero c (hc c (by simp))
      simp only [StringServerKey.popLoop, land_zero_left, mul_parallelized_zero, h1, h2, hrec]

/-- Trace of `pop_first_non_zero_char`: it returns the first non-zero byte
(0 when there is none) and zeros that byte out in place. -/
theorem popLoop_prev_one : ∀ (t : List Nat), (∀ c ∈ t, c < 256) →
    StringServerKey.popLoop 0 1 t = ((nonzeros t).headD 0, zeroFirst t)
  | [], _ => rfl
  | c :: t, hc => by
      by_cases h0 : c = 0
      · subst h0
        have hrec := popLoop_prev_one t (fun d hd => hc d (by simp [hd]))
        have e1 : IntegerKey.scalar_eq_parallelized 0 0 = 1 := rfl
        have e2 : IntegerKey.bitand_parallelized 1 (IntegerKey.bitnot_parallelized 1) = 0 := by
          decide
        have e3 : IntegerKey.mul_parallelized 0 0 = 0 := rfl
        have e4 : IntegerKey.add_parallelized 0 0 = 0 := rfl
        have e5 : IntegerKey.sub_parallelized 0 0 = 0 := by decide
        have e6 : IntegerKey.bitand_parallelized 1 1 = 1 := rfl
        simp only [StringServerKey.popLoop, e1, e2, e3, e4, e5, e6, hrec]
        rw [nonzeros_cons_zero, zeroFirst_cons_zero]
      · have hc0 : c < 256 := hc c (by simp)
        have e1 : IntegerKey.scalar_eq_parallelized c 0 = 0 := by
          simp [IntegerKey.scalar_eq_parallelized, h0]
        have e2 : IntegerKey.bitand_parallelized 1 (IntegerKey.bitnot_parallelized 0) = 1 := by
          decide
        have e3 : IntegerKey.mul_parallelized c 1 = c := by
          simp [IntegerKey.mul_parallelized, Nat.mod_eq_of_lt hc0]
        have e4 : IntegerKey.add_parallelized 0 c = c := by
          simp [IntegerKey.add_parallelized, Nat.mod_eq_of_lt hc0]
        have e5 : IntegerKey.sub_parallelized c c = 0 := by
          have h256 : c + (256 - c) = 256 := by omega
          simp [IntegerKey.sub_parallelized, h256]
        have e6 : IntegerKey.bitand_parallelized 1 0 = 0 := rfl
        have hrec := popLoop_prev_zero t c hc0 (fun d hd => hc d (by simp [hd]))
        simp only [StringServerKey.popLoop, e1, e2, e3, e4, e5, e6, hrec]
        rw [nonzeros_cons_ne c t h0, zeroFirst_cons_ne c t h0]
        simp

theorem pop_first_non_zero_char_spec (l : List Nat) (h : ∀ c ∈ l, c < 256) :
    StringServerKey.pop_first_non_zero_char l = ((nonzeros l).headD 0, zeroFirst l) :=
  popLoop_prev_one l h

/-- Zeroing the first non-zero byte removes the head of the plaintext. -/
theorem nonzeros_zeroFirst : ∀ l : List Nat, nonzeros (zeroFirst l) = (nonzeros l).tail
  | [] => rfl
  | c :: t => by
      by_cases h : c = 0
      · subst h
        rw [zeroFirst_cons_zero, nonzeros_cons_zero, nonzeros_cons_zero,
          nonzeros_zeroFirst t]
      · rw [zeroFirst_cons_ne c t h, nonzeros_cons_zero, nonzeros_cons_ne c t h]
        simp

theorem nonzeros_zeroFirst_drop (l : List Nat) :
    nonzeros ((zeroFirst l).drop 1) = (nonzeros l).tail := by
  cases l with
  | nil => rfl
  | cons c t =>
      by_cases h : c = 0
      · subst h
        rw [zeroFirst_cons_zero]
        simpa [nonzeros_cons_zero] using nonzeros_zeroFirst t
      · rw [zeroFirst_cons_ne c t h, nonzeros_cons_ne c t h]
        simp

theorem zeroFirst_mem_bound (l : List Nat) (h : ∀ c ∈ l, c < 256) :
    ∀ c ∈ zeroFirst l, c < 256 := by
  induction l with
  | nil => simp [zeroFirst]
  | cons c t ih =>
      by_cases hc : c = 0
      · subst hc
        rw [zeroFirst_cons_zero]
        intro d hd
        rcases List.mem_cons.mp hd with h1 | h1
        · omega
        · exact ih (fun e he => h e (by simp [he])) d h1
      · rw [zeroFirst_cons_ne c t hc]
        intro d hd
        rcases List.mem_cons.mp hd with h1 | h1
        · omega
        · exact h d (by simp [h1])

/-- Main normalizer loop lemma: `k` pops yield the first `k` plaintext bytes
of the working buffer, right-padded with zeros to length `k`. -/
theorem removeLoop_spec : ∀ (k : Nat) (l : List Nat), (∀ c ∈ l, c < 256) →
    StringServerKey.removeLoop k l =
      (nonzeros l).take k ++ List.replicate (k - (nonzeros l).length) 0
  | 0, l, _ => by simp [StringServerKey.removeLoop]
  | k + 1, l, h => by
      rw [StringServerKey.removeLoop, pop_first_non_zero_char_spec l h]
      have hdrop : ∀ c ∈ (zeroFirst l).drop 1, c < 256 := by
        intro d hd
        exact zeroFirst_mem_bound l h d (List.mem_of_mem_drop hd)
      rw [removeLoop_spec k _ hdrop, nonzeros_zeroFirst_drop]
      cases hnz : nonzeros l with
      | nil => simp [List.replicate_succ]
      | cons a w =>
          simp [List.replicate_succ, Nat.succ_sub_succ]

theorem remove_initial_padding_content (s : FheString) (h : ∀ c ∈ s.content, c < 256) :
    (StringServerKey.remove_initial_padding s).content =
      nonzeros s.content ++
        List.replicate (s.content.length - (nonzeros s.content).length) 0 := by
  show StringServerKey.removeLoop s.content.length s.content = _
  rw [removeLoop_spec s.content.length s.content h,
    List.take_of_length_le (nonzeros_length_le s.content)]

theorem remove_initial_padding_fpB (s : FheString) (h : ∀ c ∈ s.content, c < 256) :
    fpB (StringServerKey.remove_initial_padding s).content = true := by
  rw [remove_initial_padding_content s h]
  exact fpB_append_replicate _ _ (allNZ_nonzeros s.content)

theorem remove_initial_padding_decode (s : FheString) (h : ∀ c ∈ s.content, c < 256) :
    nonzeros (StringServerKey.remove_initial_padding s).content = nonzeros s.content := by
  rw [remove_initial_padding_content s h, nonzeros_append, nonzeros_replicate,
    nonzeros_idem, List.append_nil]

theorem remove_initial_padding_length_eq (s : FheString) (h : ∀ c ∈ s.content, c < 256) :
    (StringServerKey.remove_initial_padding s).content.length = s.content.length := by
  rw [remove_initial_padding_content s h]
  have := nonzeros_length_le s.content
  simp only [List.length_append, List.length_replicate]
  omega

theorem remove_initial_padding_padding (s : FheString) :
    (StringServerKey.remove_initial_padding s).padding = Padding.Final := rfl

theorem remove_initial_padding_lengthField (s : FheString) :
    (StringServerKey.remove_initial_padding s).length = s.length := rfl

/-! ### Unpacking well-formedness -/

theorem wellFormed_bound (s : FheString) (h : wellFormed s = true) :
    ∀ c ∈ s.content, c < 256 := by
  rw [wellFormed, Bool.and_assoc, Bool.and_eq_true] at h
  exact (contentBounded_iff s.content).mp h.1

theorem wellFormed_padOk (s : FheString) (h : wellFormed s = true) :
    padOk s.padding s.content = true := by
  rw [wellFormed, Bool.and_assoc, Bool.and_eq_true] at h
  exact (Bool.and_eq_true _ _).mp h.2 |>.1

theorem wellFormed_len (s : FheString) (h : wellFormed s = true) :
    lenOk s.length s.content = true := by
  rw [wellFormed, Bool.and_assoc, Bool.and_eq_true] at h
  exact (Bool.and_eq_true _ _).mp h.2 |>.2

theorem wellFormed_len_clear (s : FheString) (n : Nat) (h : wellFormed s = true)
    (hl : s.length = FheStrLength.Clear n) : n = (nonzeros s.content).length := by
  have := wellFormed_len s h
  rw [hl] at this
  simpa [lenOk] using this

theorem allNZ_of_padding_none (s : FheString) (h : wellFormed s = true)
    (hp : s.padding = Padding.None) : allNZ s.content = true := by
  have := wellFormed_padOk s h
  rw [hp] at this
  simpa [padOk] using this

theorem fpB_of_padding_final (s : FheString) (h : wellFormed s = true)
    (hp : s.padding = Padding.Final) : fpB s.content = true := by
  have := wellFormed_padOk s h
  rw [hp] at this
  simpa [padOk] using this

theorem fpB_of_padding_none (s : FheString) (h : wellFormed s = true)
    (hp : s.padding = Padding.None) : fpB s.content = true :=
  allNZ_fpB s.content (allNZ_of_padding_none s h hp)

/-! ### Characterizing `pop_first_non_zero_char` with index vocabulary -/

theorem zeroFirst_eq_set : ∀ l : List Nat,
    zeroFirst l = l.set (l.findIdx (fun c => c != 0)) 0
  | [] => rfl
  | c :: t => by
      by_cases h : c = 0
      · subst h
        rw [zeroFirst_cons_zero, List.findIdx_cons]
        simp only [bne_self_eq_false, cond_false, List.set_cons_succ]
        rw [zeroFirst_eq_set t]
      · rw [zeroFirst_cons_ne c t h, List.findIdx_cons]
        have : (c != 0) = true := by simpa using h
        simp [this]

theorem zeroFirst_of_allZ (l : List Nat) (h : ∀ c ∈ l, c = 0) : zeroFirst l = l := by
  induction l with
  | nil => rfl
  | cons c t ih =>
      have hc : c = 0 := h c (by simp)
      subst hc
      rw [zeroFirst_cons_zero, ih (fun d hd => h d (by simp [hd]))]

theorem headD_nonzeros_getD : ∀ l : List Nat, (∃ c ∈ l, c ≠ 0) →
    (nonzeros l).headD 0 = l.getD (l.findIdx (fun c => c != 0)) 0 ∧
      (nonzeros l).headD 0 ≠ 0
  | [], h => by simp at h
  | c :: t, h => by
      by_cases hc : c = 0
      · subst hc
        have ht : ∃ d ∈ t, d ≠ 0 := by
          rcases h with ⟨d, hd, hne⟩
          rcases List.mem_cons.mp hd with h1 | h1
          · omega
          · exact ⟨d, h1, hne⟩
        have := headD_nonzeros_getD t ht
        rw [nonzeros_cons_zero, List.findIdx_cons]
        simpa using this
      · rw [nonzeros_cons_ne c t hc, List.findIdx_cons]
        have hb : (c != 0) = true := by simpa using hc
        simp [hb, hc]

/-! ### Correctness of the equality kernel -/

theorem bool_eq_of_iff {a b : Bool} (h : a = true ↔ b = true) : a = b := by
  cases a <;> cases b <;> simp_all

theorem eqRef_cons (x y : Nat) (s t : List Nat) :
    eqRef (x :: s) (y :: t) = ((x == y) && eqRef s t) := by
  simp only [eqRef, prefEq, List.length_cons, gt_iff_lt, Nat.add_lt_add_iff_right,
    List.getD_cons_succ]
  rw [Bool.and_assoc]

theorem eqRef_correct : ∀ a b : List Nat, fpB a = true → fpB b = true →
    (eqRef a b = true ↔ nonzeros a = nonzeros b)
  | [], [], _, _ => by simp [eqRef, prefEq]
  | [], y :: t, _, hb => by
      by_cases hy : y = 0
      · subst hy
        have ht := fpB_zero_head t hb
        simp [eqRef, prefEq, nonzeros_cons_zero, nonzeros_allZ t ht]
      · have hne : (y == 0) = false := beq_eq_false_iff_ne.mpr hy
        simp [eqRef, prefEq, nonzeros_cons_ne y t hy, hne]
  | x :: s, [], ha, _ => by
      by_cases hx : x = 0
      · subst hx
        have hs := fpB_zero_head s ha
        simp [eqRef, prefEq, nonzeros_cons_zero, nonzeros_allZ s hs]
      · have hne : (x == 0) = false := beq_eq_false_iff_ne.mpr hx
        simp [eqRef, prefEq, nonzeros_cons_ne x s hx, hne]
  | x :: s, y :: t, ha, hb => by
      rw [eqRef_cons]
      by_cases hx : x = 0 <;> by_cases hy : y = 0
      · subst hx
        subst hy
        have hs := fpB_zero_head s ha
        have ht := fpB_zero_head t hb
        have h1 : eqRef s t = true := by
          rw [eqRef_correct s t (allZ_fpB s hs) (allZ_fpB t ht),
            nonzeros_allZ s hs, nonzeros_allZ t ht]
      
        simp [h1, nonzeros_cons_zero, nonzeros_allZ s hs, nonzeros_allZ t ht]
      · subst hx
        have hs := fpB_zero_head s ha
        have hne : (0 == y) = false := beq_eq_false_iff_ne.mpr (Ne.symm hy)
        simp [hne, nonzeros_cons_zero, nonzeros_allZ s hs, nonzeros_cons_ne y t hy]
      · subst hy
        have ht := fpB_zero_head t hb
        have hne : (x == 0) = false := beq_eq_false_iff_ne.mpr hx
        simp [hne, nonzeros_cons_ne x s hx, nonzeros_cons_zero, nonzeros_allZ t ht]
      · have h1 := eqRef_correct s t (fpB_tail x s ha) (fpB_tail y t hb)
        simp [nonzeros_cons_ne x s hx, nonzeros_cons_ne y t hy, h1]

theorem eq_no_init_padding_b2n (s1 s2 : FheString) :
    StringServerKey.eq_no_init_padding s1 s2 = b2n (eqRef s1.content s2.content) := by
  have hloop : StringServerKey.eqLoop StringServerKey.create_true s1.content s2.content
      = b2n (prefEq s1.content s2.content) := by
    simpa using eqLoop_b2n s1.content s2.content true
  simp only [StringServerKey.eq_no_init_padding, eqRef, hloop]
  split_ifs with h1 h2
  · rw [scalar_eq_parallelized_b2n, bitand_b2n]
  · rw [scalar_eq_parallelized_b2n, bitand_b2n]
  · rw [Bool.and_true]

theorem eq_no_init_padding_correct (s1 s2 : FheString)
    (h1 : fpB s1.content = true) (h2 : fpB s2.content = true) :
    StringServerKey.eq_no_init_padding s1 s2 =
      b2n (decide (nonzeros s1.content = nonzeros s2.content)) := by
  rw [eq_no_init_padding_b2n]
  congr 1
  apply bool_eq_of_iff
  rw [eqRef_correct _ _ h1 h2]
  simp

theorem eq_no_init_padding_correct2 (u v : FheString) (a b : List Nat)
    (hu : fpB u.content = true) (hv : fpB v.content = true)
    (ea : nonzeros u.content = a) (eb : nonzeros v.content = b) :
    StringServerKey.eq_no_init_padding u v = b2n (decide (a = b)) := by
  subst ea
  subst eb
  exact eq_no_init_padding_correct u v hu hv

theorem eqDispatch_correct (s1 s2 : FheString)
    (h1 : wellFormed s1 = true) (h2 : wellFormed s2 = true) :
    StringServerKey.eqDispatch s1 s2 = b2n (decide (decode s1 = decode s2)) := by
  have b1 := wellFormed_bound s1 h1
  have b2 := wellFormed_bound s2 h2
  cases hp1 : s1.padding <;> cases hp2 : s2.padding <;>
    simp only [StringServerKey.eqDispatch, hp1, hp2] <;>
    refine eq_no_init_padding_correct2 _ _ _ _ ?_ ?_ ?_ ?_ <;>
    first
      | exact fpB_of_padding_none s1 h1 hp1
      | exact fpB_of_padding_final s1 h1 hp1
      | exact fpB_of_padding_none s2 h2 hp2
      | exact fpB_of_padding_final s2 h2 hp2
      | exact remove_initial_padding_fpB s1 b1
      | exact remove_initial_padding_fpB s2 b2
      | exact remove_initial_padding_decode s1 b1
      | exact remove_initial_padding_decode s2 b2
      | rfl

theorem eq_correct (s1 s2 : FheString)
    (h1 : wellFormed s1 = true) (h2 : wellFormed s2 = true) :
    StringServerKey.eq s1 s2 = b2n (decide (decode s1 = decode s2)) := by
  have hdisp := eqDispatch_correct s1 s2 h1 h2
  cases hl1 : s1.length <;> cases hl2 : s2.length <;>
    simp only [StringServerKey.eq, hl1, hl2] <;>
    try exact hdisp
  rename_i l1 l2
  by_cases hne : l1 ≠ l2
  · rw [if_pos hne]
    have e1 := wellFormed_len_clear s1 l1 h1 hl1
    have e2 := wellFormed_len_clear s2 l2 h2 hl2
    have hd : ¬ (decode s1 = decode s2) := by
      intro hc
      apply hne
      rw [e1, e2]
      exact congrArg List.length hc
    rw [decide_eq_false hd, b2n_false]
    rfl
  · rw [if_neg hne]
    exact hdisp

/-! ### Correctness of the clear equality kernel -/

theorem eq_clear_no_init_padding_b2n (s1 : FheString) (t : List Nat) :
    StringServerKey.eq_clear_no_init_padding s1 t = b2n (eqClearRef s1.content t) := by
  have hloop : StringServerKey.eqClearLoop StringServerKey.create_true s1.content t
      = b2n (prefEq s1.content t) := by
    simpa using eqClearLoop_b2n s1.content t true
  simp only [StringServerKey.eq_clear_no_init_padding, eqClearRef, hloop]
  split_ifs with h1 h2
  · rfl
  · rw [scalar_eq_parallelized_b2n, bitand_b2n]
  · rw [Bool.and_true]

theorem eqClearRef_cons (x y : Nat) (s tt : List Nat) :
    eqClearRef (x :: s) (y :: tt) = ((x == y) && eqClearRef s tt) := by
  simp only [eqClearRef, prefEq, List.length_cons, gt_iff_lt, Nat.add_lt_add_iff_right,
    List.getD_cons_succ]
  split_ifs with h h2
  · simp
  · rw [Bool.and_assoc]
  · rw [Bool.and_assoc]

theorem eqClearRef_correct : ∀ (a t : List Nat), fpB a = true → allNZ t = true →
    (eqClearRef a t = true ↔ nonzeros a = t)
  | a, [], ha, _ => by
      cases a with
      | nil => simp [eqClearRef, prefEq]
      | cons c s =>
          by_cases hc : c = 0
          · subst hc
            have hs := fpB_zero_head s ha
            simp [eqClearRef, prefEq, nonzeros_cons_zero, nonzeros_allZ s hs]
          · have hne : (c == 0) = false := beq_eq_false_iff_ne.mpr hc
            simp [eqClearRef, prefEq, nonzeros_cons_ne c s hc, hne]
  | [], y :: tt, _, _ => by simp [eqClearRef]
  | x :: s, y :: tt, ha, ht => by
      rw [eqClearRef_cons]
      have hy : y ≠ 0 := (allNZ_iff _).mp ht y (by simp)
      have htt : allNZ tt = true :=
        (allNZ_iff tt).mpr fun d hd => (allNZ_iff _).mp ht d (by simp [hd])
      by_cases hx : x = 0
      · subst hx
        have hs := fpB_zero_head s ha
        have hne : (0 == y) = false := beq_eq_false_iff_ne.mpr (Ne.symm hy)
        simp [hne, nonzeros_cons_zero, nonzeros_allZ s hs]
      · have h1 := eqClearRef_correct s tt (fpB_tail x s ha) htt
        simp [nonzeros_cons_ne x s hx, h1]

theorem eq_clear_no_init_padding_correct2 (u : FheString) (t a : List Nat)
    (hu : fpB u.content = true) (ht : allNZ t = true) (ea : nonzeros u.content = a) :
    StringServerKey.eq_clear_no_init_padding u t = b2n (decide (a = t)) := by
  subst ea
  rw [eq_clear_no_init_padding_b2n]
  congr 1
  apply bool_eq_of_iff
  rw [eqClearRef_correct _ _ hu ht]
  simp

theorem eqClearDispatch_correct (s1 : FheString) (t : List Nat)
    (h1 : wellFormed s1 = true) (ht : allNZ t = true) :
    StringServerKey.eqClearDispatch s1 t = b2n (decide (decode s1 = t)) := by
  have b1 := wellFormed_bound s1 h1
  cases hp1 : s1.padding <;>
    simp only [StringServerKey.eqClearDispatch, hp1] <;>
    refine eq_clear_no_init_padding_correct2 _ _ _ ?_ ht ?_ <;>
    first
      | exact fpB_of_padding_none s1 h1 hp1
      | exact fpB_of_padding_final s1 h1 hp1
      | exact remove_initial_padding_fpB s1 b1
      | exact remove_initial_padding_decode s1 b1
      | rfl

theorem eq_clear_correct (s1 : FheString) (t : List Nat)
    (h1 : wellFormed s1 = true) (ht : allNZ t = true) :
    StringServerKey.eq_clear s1 t = b2n (decide (decode s1 = t)) := by
  have hdisp := eqClearDispatch_correct s1 t h1 ht
  cases hl1 : s1.length <;>
    simp only [StringServerKey.eq_clear, hl1] <;>
    try exact hdisp
  rename_i l1
  by_cases hne : l1 ≠ t.length
  · rw [if_pos hne]
    have e1 := wellFormed_len_clear s1 l1 h1 hl1
    have hd : ¬ (decode s1 = t) := by
      intro hc
      apply hne
      rw [e1]
      exact congrArg List.length hc
    rw [decide_eq_false hd, b2n_false]
    rfl
  · rw [if_neg hne]
    exact hdisp

/-! ### Correctness of the prefix kernels -/

theorem starts_with_encrypted_no_init_padding_b2n (s pfx : FheString) :
    StringServerKey.starts_with_encrypted_no_init_padding s pfx =
      b2n (swRefB pfx.padding s.content pfx.content) := by
  have hloop : StringServerKey.swLoop pfx.padding StringServerKey.create_true
      s.content pfx.content = b2n (swPrefB pfx.padding s.content pfx.content) := by
    simpa using swLoop_b2n pfx.padding s.content pfx.content true
  simp only [StringServerKey.starts_with_encrypted_no_init_padding, swRefB, hloop]
  split_ifs with h
  · rw [scalar_eq_parallelized_b2n, bitand_b2n]
  · rw [Bool.and_true]

theorem swCharB_not_none (padding : Padding) (h : padding ≠ Padding.None) (c p : Nat) :
    swCharB padding c p = swCharB Padding.Final c p := by
  cases padding
  · exact absurd rfl h
  · rfl
  · rfl
  · rfl

theorem swPrefB_none_final : ∀ (a p : List Nat), allNZ p = true →
    swPrefB Padding.None a p = swPrefB Padding.Final a p
  | [], p, _ => by cases p <;> rfl
  | _ :: _, [], _ => rfl
  | c :: a, q :: p, h => by
      have hq : q ≠ 0 := (allNZ_iff _).mp h q (by simp)
      have hp : allNZ p = true :=
        (allNZ_iff p).mpr fun d hd => (allNZ_iff _).mp h d (by simp [hd])
      simp only [swPrefB]
      rw [swPrefB_none_final a p hp]
      have hch : swCharB Padding.None c q = swCharB Padding.Final c q := by
        simp [swCharB, beq_eq_false_iff_ne.mpr hq]
      rw [hch]

theorem swPrefB_eq_final (padding : Padding) (h : padding ≠ Padding.None) :
    ∀ a p : List Nat, swPrefB padding a p = swPrefB Padding.Final a p
  | [], p => by cases p <;> rfl
  | _ :: _, [] => rfl
  | c :: a, q :: p => by
      simp only [swPrefB]
      rw [swPrefB_eq_final padding h a p, swCharB_not_none padding h]

theorem swRefB_none_final (a p : List Nat) (h : allNZ p = true) :
    swRefB Padding.None a p = swRefB Padding.Final a p := by
  simp only [swRefB]
  rw [swPrefB_none_final a p h]

theorem swRefB_eq_final (padding : Padding) (a p : List Nat) (h : padding ≠ Padding.None) :
    swRefB padding a p = swRefB Padding.Final a p := by
  simp only [swRefB]
  rw [swPrefB_eq_final padding h a p]

theorem swRefB_cons (x y : Nat) (s t : List Nat) :
    swRefB Padding.Final (x :: s) (y :: t) =
      (((x == y) || (y == 0)) && swRefB Padding.Final s t) := by
  simp only [swRefB, swPrefB, swCharB, List.length_cons, gt_iff_lt,
    Nat.add_lt_add_iff_right, List.getD_cons_succ]
  rw [Bool.and_assoc]

theorem swRefB_correct : ∀ (a p : List Nat), fpB a = true → fpB p = true →
    (swRefB Padding.Final a p = true ↔ isPrefB (nonzeros p) (nonzeros a) = true)
  | [], [], _, _ => by simp [swRefB, swPrefB, isPrefB]
  | [], q :: t, _, hp => by
      by_cases hq : q = 0
      · subst hq
        have ht := fpB_zero_head t hp
        simp [swRefB, swPrefB, nonzeros_cons_zero, nonzeros_allZ t ht, isPrefB]
      · have hne : (q == 0) = false := beq_eq_false_iff_ne.mpr hq
        simp [swRefB, swPrefB, nonzeros_cons_ne q t hq, hne, isPrefB]
  | c :: u, [], _, _ => by
      simp [swRefB, swPrefB, isPrefB]
  | c :: u, q :: t, ha, hp => by
      rw [swRefB_cons]
      by_cases hq : q = 0
      · subst hq
        have ht := fpB_zero_head t hp
        have h1 : swRefB Padding.Final u t = true := by
          rw [swRefB_correct u t (fpB_tail c u ha) (allZ_fpB t ht)]
          simp [nonzeros_allZ t ht, isPrefB]
        simp [h1, nonzeros_cons_zero, nonzeros_allZ t ht, isPrefB]
      · by_cases hc : c = 0
        · subst hc
          have hu := fpB_zero_head u ha
          have hne1 : (0 == q) = false := beq_eq_false_iff_ne.mpr (Ne.symm hq)
          have hne2 : (q == 0) = false := beq_eq_false_iff_ne.mpr hq
          simp [hne1, hne2, nonzeros_cons_zero, nonzeros_allZ u hu,
            nonzeros_cons_ne q t hq, isPrefB]
        · have h1 := swRefB_correct u t (fpB_tail c u ha) (fpB_tail q t hp)
          have hne2 : (q == 0) = false := beq_eq_false_iff_ne.mpr hq
          simp only [nonzeros_cons_ne c u hc, nonzeros_cons_ne q t hq, hne2, isPrefB,
            Bool.or_false, Bool.and_eq_true, beq_iff_eq, h1]
          constructor
          · rintro ⟨hcq, hpq⟩
            exact ⟨hcq.symm, hpq⟩
          · rintro ⟨hcq, hpq⟩
            exact ⟨hcq.symm, hpq⟩

theorem starts_with_encrypted_no_init_padding_correct2 (u v : FheString) (a p : List Nat)
    (hu : fpB u.content = true) (hv : fpB v.content = true)
    (hvp : v.padding = Padding.None → allNZ v.content = true)
    (ea : nonzeros u.content = a) (ep : nonzeros v.content = p) :
    StringServerKey.starts_with_encrypted_no_init_padding u v = b2n (isPrefB p a) := by
  subst ea
  subst ep
  rw [starts_with_encrypted_no_init_padding_b2n]
  congr 1
  have hfin : swRefB Padding.Final u.content v.content =
      isPrefB (nonzeros v.content) (nonzeros u.content) := by
    apply bool_eq_of_iff
    rw [swRefB_correct _ _ hu hv]
  by_cases hp : v.padding = Padding.None
  · rw [hp, swRefB_none_final _ _ (hvp hp), hfin]
  · rw [swRefB_eq_final _ _ _ hp, hfin]

theorem swDispatch_correct (s pfx : FheString)
    (h1 : wellFormed s = true) (h2 : wellFormed pfx = true) :
    StringServerKey.swDispatch s pfx = b2n (isPrefB (decode pfx) (decode s)) := by
  have b1 := wellFormed_bound s h1
  have b2 := wellFormed_bound pfx h2
  cases hp1 : s.padding <;> cases hp2 : pfx.padding <;>
    simp only [StringServerKey.swDispatch, hp1, hp2] <;>
    refine starts_with_encrypted_no_init_padding_correct2 _ _ _ _ ?_ ?_ ?_ ?_ ?_ <;>
    first
      | exact fpB_of_padding_none s h1 hp1
      | exact fpB_of_padding_final s h1 hp1
      | exact fpB_of_padding_none pfx h2 hp2
      | exact fpB_of_padding_final pfx h2 hp2
      | exact remove_initial_padding_fpB s b1
      | exact remove_initial_padding_fpB pfx b2
      | exact remove_initial_padding_decode s b1
      | exact remove_initial_padding_decode pfx b2
      | exact fun hn => allNZ_of_padding_none pfx h2 hn
      | (intro hnone; simp [StringServerKey.remove_initial_padding] at hnone)
      | rfl

theorem isPrefB_false_of_longer (p l : List Nat) (h : l.length < p.length) :
    isPrefB p l = false := by
  apply Bool.eq_false_iff.mpr
  intro hc
  have := isPrefB_length p l hc
  omega

theorem starts_with_encrypted_correct (s pfx : FheString)
    (h1 : wellFormed s = true) (h2 : wellFormed pfx = true) :
    StringServerKey.starts_with_encrypted s pfx =
      b2n (isPrefB (decode pfx) (decode s)) := by
  have hdisp := swDispatch_correct s pfx h1 h2
  have hbound := nonzeros_length_le s.content
  cases hl1 : s.length <;> cases hl2 : pfx.length <;>
    simp only [StringServerKey.starts_with_encrypted, hl1, hl2] <;>
    try exact hdisp
  · rename_i l l_pfx
    have e1 := wellFormed_len_clear s l h1 hl1
    have e2 := wellFormed_len_clear pfx l_pfx h2 hl2
    by_cases hgt : l_pfx > l
    · rw [if_pos hgt, isPrefB_false_of_longer (decode pfx) (decode s) (by
        show (nonzeros s.content).length < (nonzeros pfx.content).length
        omega)]
      rfl
    · rw [if_neg hgt]
      by_cases hgt2 : l_pfx > s.content.length
      · rw [if_pos hgt2, isPrefB_false_of_longer (decode pfx) (decode s) (by
          show (nonzeros s.content).length < (nonzeros pfx.content).length
          omega)]
        rfl
      · rw [if_neg hgt2]
        exact hdisp
  · rename_i l_pfx
    have e2 := wellFormed_len_clear pfx l_pfx h2 hl2
    by_cases hgt2 : l_pfx > s.content.length
    · rw [if_pos hgt2, isPrefB_false_of_longer (decode pfx) (decode s) (by
        show (nonzeros s.content).length < (nonzeros pfx.content).length
        omega)]
      rfl
    · rw [if_neg hgt2]
      exact hdisp

theorem swcKernel_b2n (s : FheString) (t : List Nat) :
    StringServerKey.starts_with_clear_no_init_padding s t = b2n (prefEq s.content t) := by
  simpa [StringServerKey.starts_with_clear_no_init_padding]
    using eqClearLoop_b2n s.content t true

theorem prefEq_isPrefB : ∀ (a t : List Nat), fpB a = true → allNZ t = true →
    t.length ≤ a.length → (prefEq a t = true ↔ isPrefB t (nonzeros a) = true)
  | a, [], _, _, _ => by cases a <;> simp [prefEq, isPrefB]
  | [], y :: tt, _, _, hlen => by
      exact absurd hlen (by simp)
  | c :: u, y :: tt, ha, ht, hlen => by
      have hy : y ≠ 0 := (allNZ_iff _).mp ht y (by simp)
      have htt : allNZ tt = true :=
        (allNZ_iff tt).mpr fun d hd => (allNZ_iff _).mp ht d (by simp [hd])
      by_cases hc : c = 0
      · subst hc
        have hu := fpB_zero_head u ha
        have hne : (0 == y) = false := beq_eq_false_iff_ne.mpr (Ne.symm hy)
        simp [prefEq, hne, nonzeros_cons_zero, nonzeros_allZ u hu, isPrefB]
      · have h1 := prefEq_isPrefB u tt (fpB_tail c u ha) htt (by simpa using hlen)
        simp only [prefEq, nonzeros_cons_ne c u hc, isPrefB, Bool.and_eq_true,
          beq_iff_eq, h1]
        constructor
        · rintro ⟨hcq, hpq⟩
          exact ⟨hcq.symm, hpq⟩
        · rintro ⟨hcq, hpq⟩
          exact ⟨hcq.symm, hpq⟩

theorem swc_kernel_correct2 (u : FheString) (t a : List Nat)
    (hu : fpB u.content = true) (ht : allNZ t = true) (hlen : t.length ≤ u.content.length)
    (ea : nonzeros u.content = a) :
    StringServerKey.starts_with_clear_no_init_padding u t = b2n (isPrefB t a) := by
  subst ea
  rw [swcKernel_b2n]
  congr 1
  apply bool_eq_of_iff
  rw [prefEq_isPrefB _ _ hu ht hlen]

theorem swcDispatch_correct (s : FheString) (t : List Nat)
    (h1 : wellFormed s = true) (ht : allNZ t = true)
    (hlen : t.length ≤ s.content.length) :
    StringServerKey.swcDispatch s t = b2n (isPrefB t (decode s)) := by
  have b1 := wellFormed_bound s h1
  cases hp1 : s.padding <;>
    simp only [StringServerKey.swcDispatch, hp1] <;>
    refine swc_kernel_correct2 _ _ _ ?_ ht ?_ ?_ <;>
    first
      | exact fpB_of_padding_none s h1 hp1
      | exact fpB_of_padding_final s h1 hp1
      | exact remove_initial_padding_fpB s b1
      | exact hlen
      | (rw [remove_initial_padding_length_eq s b1]; exact hlen)
      | exact remove_initial_padding_decode s b1
      | rfl

theorem starts_with_clear_correct (s : FheString) (t : List Nat)
    (h1 : wellFormed s = true) (ht : allNZ t = true) :
    StringServerKey.starts_with_clear s t = b2n (isPrefB t (decode s)) := by
  have hbound := nonzeros_length_le s.content
  cases hl1 : s.length <;> simp only [StringServerKey.starts_with_clear, hl1]
  · rename_i l
    have e1 := wellFormed_len_clear s l h1 hl1
    by_cases hgt : t.length > l
    · rw [if_pos hgt, isPrefB_false_of_longer t (decode s) (by
        show (nonzeros s.content).length < t.length
        omega)]
      rfl
    · rw [if_neg hgt]
      by_cases hgt2 : t.length > s.content.length
      · rw [if_pos hgt2, isPrefB_false_of_longer t (decode s) (by
          show (nonzeros s.content).length < t.length
          omega)]
        rfl
      · rw [if_neg hgt2]
        exact swcDispatch_correct s t h1 ht (by omega)
  · by_cases hgt2 : t.length > s.content.length
    · rw [if_pos hgt2, isPrefB_false_of_longer t (decode s) (by
        show (nonzeros s.content).length < t.length
        omega)]
      rfl
    · rw [if_neg hgt2]
      exact swcDispatch_correct s t h1 ht (by omega)

/-! ### Correctness of the lexicographic kernels -/

theorem compare_no_init_padding_b2n (s1 s2 : FheString) (operator : Ordering) :
    StringServerKey.compare_no_init_padding s1 s2 operator =
      b2n (cmpRefB operator s1.content s2.content) := by
  have hloop : StringServerKey.compareLoop operator StringServerKey.create_zero
      StringServerKey.create_true s1.content s2.content =
      (b2n (cmpLoopB operator false true s1.content s2.content).1,
       b2n (cmpLoopB operator false true s1.content s2.content).2) := by
    simpa using compareLoop_b2n operator s1.content s2.content false true
  simp only [StringServerKey.compare_no_init_padding, cmpRefB, hloop]
  cases operator <;> split_ifs <;>
    simp [scalar_eq_parallelized_b2n, bitand_b2n, bitor_b2n]

theorem compare_clear_no_init_padding_b2n (s1 : FheString) (t : List Nat)
    (operator : Ordering) :
    StringServerKey.compare_clear_no_init_padding s1 t operator =
      b2n (cmpClearRefB operator s1.content t) := by
  have hloop : StringServerKey.compareClearLoop operator StringServerKey.create_zero
      StringServerKey.create_true s1.content t =
      (b2n (cmpLoopB operator false true s1.content t).1,
       b2n (cmpLoopB operator false true s1.content t).2) := by
    simpa using compareClearLoop_b2n operator s1.content t false true
  simp only [StringServerKey.compare_clear_no_init_padding, cmpClearRefB, hloop]
  cases operator <;> split_ifs <;>
    simp [scalar_eq_parallelized_b2n, bitand_b2n, bitor_b2n]

theorem cmpLoopB_ep_false (operator : Ordering) : ∀ (a b : List Nat) (r : Bool),
    cmpLoopB operator r false a b = (r, false)
  | [], b, r => by cases b <;> rfl
  | _ :: _, [], r => rfl
  | x :: a, y :: b, r => by
      have hstep : cmpLoopB operator r false (x :: a) (y :: b) =
          cmpLoopB operator r false a b := by
        simp [cmpLoopB]
      rw [hstep, cmpLoopB_ep_false operator a b r]

theorem cmpLoopB_step_eq (operator : Ordering) (r : Bool) (x : Nat) (a b : List Nat) :
    cmpLoopB operator r true (x :: a) (x :: b) = cmpLoopB operator r true a b := by
  simp [cmpLoopB]

theorem cmpLoopB_cons_ne (operator : Ordering) (x y : Nat) (a b : List Nat)
    (h : ¬ x = y) :
    cmpLoopB operator false true (x :: a) (y :: b) = (cmpCharB operator x y, false) := by
  have hxy : (x == y) = false := beq_eq_false_iff_ne.mpr h
  have hstep : cmpLoopB operator false true (x :: a) (y :: b) =
      cmpLoopB operator (cmpCharB operator x y) false a b := by
    simp [cmpLoopB, hxy]
  rw [hstep, cmpLoopB_ep_false operator a b]

theorem cmpRefB_cons_eq (operator : Ordering) (x : Nat) (a b : List Nat) :
    cmpRefB operator (x :: a) (x :: b) = cmpRefB operator a b := by
  simp only [cmpRefB, cmpLoopB_step_eq operator false x a b, List.length_cons,
    gt_iff_lt, Nat.add_lt_add_iff_right, List.getD_cons_succ]

theorem cmpClearRefB_cons_eq (operator : Ordering) (x : Nat) (a b : List Nat) :
    cmpClearRefB operator (x :: a) (x :: b) = cmpClearRefB operator a b := by
  simp only [cmpClearRefB, cmpLoopB_step_eq operator false x a b, List.length_cons,
    gt_iff_lt, Nat.add_lt_add_iff_right, List.getD_cons_succ]

theorem cmpRefB_cons_ne (operator : Ordering) (x y : Nat) (a b : List Nat)
    (h : ¬ x = y) : cmpRefB operator (x :: a) (y :: b) = cmpCharB operator x y := by
  simp only [cmpRefB, cmpLoopB_cons_ne operator x y a b h]
  cases operator <;> split_ifs <;> simp

theorem cmpClearRefB_cons_ne (operator : Ordering) (x y : Nat) (a b : List Nat)
    (h : ¬ x = y) : cmpClearRefB operator (x :: a) (y :: b) = cmpCharB operator x y := by
  simp only [cmpClearRefB, cmpLoopB_cons_ne operator x y a b h]
  cases operator <;> split_ifs <;> simp

theorem cmpRefB_lt_correct : ∀ a b : List Nat, fpB a = true → fpB b = true →
    (cmpRefB Ordering.lt a b = true ↔ lexLe (nonzeros a) (nonzeros b) = true)
  | [], [], _, _ => by simp [cmpRefB, cmpLoopB, lexLe]
  | [], y :: t, _, _ => by simp [cmpRefB, cmpLoopB, lexLe]
  | x :: s, [], ha, _ => by
      by_cases hx : x = 0
      · subst hx
        have hs := fpB_zero_head s ha
        simp [cmpRefB, cmpLoopB, nonzeros_cons_zero, nonzeros_allZ s hs, lexLe]
      · have hne : (x == 0) = false := beq_eq_false_iff_ne.mpr hx
        simp [cmpRefB, cmpLoopB, hne, nonzeros_cons_ne x s hx, lexLe]
  | x :: s, y :: t, ha, hb => by
      by_cases hxy : x = y
      · subst hxy
        rw [cmpRefB_cons_eq]
        have h1 := cmpRefB_lt_correct s t (fpB_tail x s ha) (fpB_tail x t hb)
        by_cases hx : x = 0
        · subst hx
          have hs := fpB_zero_head s ha
          have ht := fpB_zero_head t hb
          rw [h1]
          simp [nonzeros_cons_zero, nonzeros_allZ s hs, nonzeros_allZ t ht, lexLe]
        · rw [h1]
          simp [nonzeros_cons_ne x s hx, nonzeros_cons_ne x t hx, lexLe]
      · rw [cmpRefB_cons_ne _ _ _ _ _ hxy]
        by_cases hx : x = 0
        · subst hx
          have hs := fpB_zero_head s ha
          have hy : y ≠ 0 := fun hy0 => hxy hy0.symm
          simp [cmpCharB, nonzeros_cons_zero, nonzeros_allZ s hs,
            nonzeros_cons_ne y t hy, lexLe]
        · by_cases hy : y = 0
          · subst hy
            have ht := fpB_zero_head t hb
            have hle : ¬ (x ≤ 0) := by omega
            simp [cmpCharB, nonzeros_cons_ne x s hx, nonzeros_cons_zero,
              nonzeros_allZ t ht, lexLe, hle]
          · rcases Nat.lt_trichotomy x y with h | h | h
            · have hlex : lexLe (x :: nonzeros s) (y :: nonzeros t) = true := by
                simp [lexLe, h]
              simp [cmpCharB, nonzeros_cons_ne x s hx, nonzeros_cons_ne y t hy,
                hlex, Nat.le_of_lt h]
            · exact absurd h hxy
            · have hlex : lexLe (x :: nonzeros s) (y :: nonzeros t) = false := by
                simp [lexLe, h, Nat.lt_asymm h]
              have hle : ¬ (x ≤ y) := by omega
              simp [cmpCharB, nonzeros_cons_ne x s hx, nonzeros_cons_ne y t hy,
                hlex, hle]

theorem cmpRefB_gt_correct : ∀ a b : List Nat, fpB a = true → fpB b = true →
    (cmpRefB Ordering.gt a b = true ↔ lexLe (nonzeros b) (nonzeros a) = true)
  | [], [], _, _ => by simp [cmpRefB, cmpLoopB, lexLe]
  | [], y :: t, _, hb => by
      by_cases hy : y = 0
      · subst hy
        have ht := fpB_zero_head t hb
        simp [cmpRefB, cmpLoopB, nonzeros_cons_zero, nonzeros_allZ t ht, lexLe]
      · have hne : (y == 0) = false := beq_eq_false_iff_ne.mpr hy
        simp [cmpRefB, cmpLoopB, hne, nonzeros_cons_ne y t hy, lexLe]
  | x :: s, [], _, _ => by simp [cmpRefB, cmpLoopB, lexLe]
  | x :: s, y :: t, ha, hb => by
      by_cases hxy : x = y
      · subst hxy
        rw [cmpRefB_cons_eq]
        have h1 := cmpRefB_gt_correct s t (fpB_tail x s ha) (fpB_tail x t hb)
        by_cases hx : x = 0
        · subst hx
          have hs := fpB_zero_head s ha
          have ht := fpB_zero_head t hb
          rw [h1]
          simp [nonzeros_cons_zero, nonzeros_allZ s hs, nonzeros_allZ t ht, lexLe]
        · rw [h1]
          simp [nonzeros_cons_ne x s hx, nonzeros_cons_ne x t hx, lexLe]
      · rw [cmpRefB_cons_ne _ _ _ _ _ hxy]
        by_cases hx : x = 0
        · subst hx
          have hs := fpB_zero_head s ha
          have hy : y ≠ 0 := fun hy0 => hxy hy0.symm
          have hle : ¬ (y ≤ 0) := by omega
          simp [cmpCharB, nonzeros_cons_zero, nonzeros_allZ s hs,
            nonzeros_cons_ne y t hy, lexLe, hle]
        · by_cases hy : y = 0
          · subst hy
            have ht := fpB_zero_head t hb
            simp [cmpCharB, nonzeros_cons_ne x s hx, nonzeros_cons_zero,
              nonzeros_allZ t ht, lexLe]
          · rcases Nat.lt_trichotomy x y with h | h | h
            · have hlex : lexLe (y :: nonzeros t) (x :: nonzeros s) = false := by
                simp [lexLe, h, Nat.lt_asymm h]
              have hle : ¬ (y ≤ x) := by omega
              simp [cmpCharB, nonzeros_cons_ne x s hx, nonzeros_cons_ne y t hy,
                hlex, hle]
            · exact absurd h hxy
            · have hlex : lexLe (y :: nonzeros t) (x :: nonzeros s) = true := by
                simp [lexLe, h]
              simp [cmpCharB, nonzeros_cons_ne x s hx, nonzeros_cons_ne y t hy,
                hlex, Nat.le_of_lt h]

theorem cmpClearRefB_lt_correct : ∀ (a t : List Nat), fpB a = true → allNZ t = true →
    (cmpClearRefB Ordering.lt a t = true ↔ lexLe (nonzeros a) t = true)
  | [], [], _, _ => by simp [cmpClearRefB, cmpLoopB, lexLe]
  | [], y :: tt, _, _ => by simp [cmpClearRefB, cmpLoopB, lexLe]
  | x :: s, [], ha, _ => by
      by_cases hx : x = 0
      · subst hx
        have hs := fpB_zero_head s ha
        simp [cmpClearRefB, cmpLoopB, nonzeros_cons_zero, nonzeros_allZ s hs, lexLe]
      · have hne : (x == 0) = false := beq_eq_false_iff_ne.mpr hx
        simp [cmpClearRefB, cmpLoopB, hne, nonzeros_cons_ne x s hx, lexLe]
  | x :: s, y :: tt, ha, ht => by
      have hy : y ≠ 0 := (allNZ_iff _).mp ht y (by simp)
      have htt : allNZ tt = true :=
        (allNZ_iff tt).mpr fun d hd => (allNZ_iff _).mp ht d (by simp [hd])
      by_cases hxy : x = y
      · subst hxy
        rw [cmpClearRefB_cons_eq]
        have h1 := cmpClearRefB_lt_correct s tt (fpB_tail x s ha) htt
        rw [h1]
        simp [nonzeros_cons_ne x s hy, lexLe]
      · rw [cmpClearRefB_cons_ne _ _ _ _ _ hxy]
        by_cases hx : x = 0
        · subst hx
          have hs := fpB_zero_head s ha
          simp [cmpCharB, nonzeros_cons_zero, nonzeros_allZ s hs, lexLe]
        · rcases Nat.lt_trichotomy x y with h | h | h
          · have hlex : lexLe (x :: nonzeros s) (y :: tt) = true := by
              simp [lexLe, h]
            simp [cmpCharB, nonzeros_cons_ne x s hx, hlex, Nat.le_of_lt h]
          · exact absurd h hxy
          · have hlex : lexLe (x :: nonzeros s) (y :: tt) = false := by
              simp [lexLe, h, Nat.lt_asymm h]
            have hle : ¬ (x ≤ y) := by omega
            simp [cmpCharB, nonzeros_cons_ne x s hx, hlex, hle]

theorem cmpClearRefB_gt_correct : ∀ (a t : List Nat), fpB a = true → allNZ t = true →
    (cmpClearRefB Ordering.gt a t = true ↔ lexLe t (nonzeros a) = true)
  | [], [], _, _ => by simp [cmpClearRefB, cmpLoopB, lexLe]
  | [], y :: tt, _, _ => by simp [cmpClearRefB, cmpLoopB, lexLe]
  | x :: s, [], ha, _ => by simp [cmpClearRefB, cmpLoopB, lexLe]
  | x :: s, y :: tt, ha, ht => by
      have hy : y ≠ 0 := (allNZ_iff _).mp ht y (by simp)
      have htt : allNZ tt = true :=
        (allNZ_iff tt).mpr fun d hd => (allNZ_iff _).mp ht d (by simp [hd])
      by_cases hxy : x = y
      · subst hxy
        rw [cmpClearRefB_cons_eq]
        have h1 := cmpClearRefB_gt_correct s tt (fpB_tail x s ha) htt
        rw [h1]
        simp [nonzeros_cons_ne x s hy, lexLe]
      · rw [cmpClearRefB_cons_ne _ _ _ _ _ hxy]
        by_cases hx : x = 0
        · subst hx
          have hs := fpB_zero_head s ha
          have hle : ¬ (y ≤ 0) := by omega
          simp [cmpCharB, nonzeros_cons_zero, nonzeros_allZ s hs, lexLe, hle]
        · rcases Nat.lt_trichotomy x y with h | h | h
          · have hlex : lexLe (y :: tt) (x :: nonzeros s) = false := by
              simp [lexLe, h, Nat.lt_asymm h]
            have hle : ¬ (y ≤ x) := by omega
            simp [cmpCharB, nonzeros_cons_ne x s hx, hlex, hle]
          · exact absurd h hxy
          · have hlex : lexLe (y :: tt) (x :: nonzeros s) = true := by
              simp [lexLe, h]
            simp [cmpCharB, nonzeros_cons_ne x s hx, hlex, Nat.le_of_lt h]

theorem compare_lt_correct2 (u v : FheString) (a b : List Nat)
    (hu : fpB u.content = true) (hv : fpB v.content = true)
    (ea : nonzeros u.content = a) (eb : nonzeros v.content = b) :
    StringServerKey.compare_no_init_padding u v Ordering.lt = b2n (lexLe a b) := by
  subst ea
  subst eb
  rw [compare_no_init_padding_b2n]
  congr 1
  apply bool_eq_of_iff
  rw [cmpRefB_lt_correct _ _ hu hv]

theorem compare_gt_correct2 (u v : FheString) (a b : List Nat)
    (hu : fpB u.content = true) (hv : fpB v.content = true)
    (ea : nonzeros u.content = a) (eb : nonzeros v.content = b) :
    StringServerKey.compare_no_init_padding u v Ordering.gt = b2n (lexLe b a) := by
  subst ea
  subst eb
  rw [compare_no_init_padding_b2n]
  congr 1
  apply bool_eq_of_iff
  rw [cmpRefB_gt_correct _ _ hu hv]

theorem le_correct (s1 s2 : FheString)
    (h1 : wellFormed s1 = true) (h2 : wellFormed s2 = true) :
    StringServerKey.le s1 s2 = b2n (lexLe (decode s1) (decode s2)) := by
  have b1 := wellFormed_bound s1 h1
  have b2 := wellFormed_bound s2 h2
  cases hp1 : s1.padding <;> cases hp2 : s2.padding <;>
    simp only [StringServerKey.le, StringServerKey.compare, hp1, hp2] <;>
    refine compare_lt_correct2 _ _ _ _ ?_ ?_ ?_ ?_ <;>
    first
      | exact fpB_of_padding_none s1 h1 hp1
      | exact fpB_of_padding_final s1 h1 hp1
      | exact fpB_of_padding_none s2 h2 hp2
      | exact fpB_of_padding_final s2 h2 hp2
      | exact remove_initial_padding_fpB s1 b1
      | exact remove_initial_padding_fpB s2 b2
      | exact remove_initial_padding_decode s1 b1
      | exact remove_initial_padding_decode s2 b2
      | rfl

theorem ge_correct (s1 s2 : FheString)
    (h1 : wellFormed s1 = true) (h2 : wellFormed s2 = true) :
    StringServerKey.ge s1 s2 = b2n (lexLe (decode s2) (decode s1)) := by
  have b1 := wellFormed_bound s1 h1
  have b2 := wellFormed_bound s2 h2
  cases hp1 : s1.padding <;> cases hp2 : s2.padding <;>
    simp only [StringServerKey.ge, StringServerKey.compare, hp1, hp2] <;>
    refine compare_gt_correct2 _ _ _ _ ?_ ?_ ?_ ?_ <;>
    first
      | exact fpB_of_padding_none s1 h1 hp1
      | exact fpB_of_padding_final s1 h1 hp1
      | exact fpB_of_padding_none s2 h2 hp2
      | exact fpB_of_padding_final s2 h2 hp2
      | exact remove_initial_padding_fpB s1 b1
      | exact remove_initial_padding_fpB s2 b2
      | exact remove_initial_padding_decode s1 b1
      | exact remove_initial_padding_decode s2 b2
      | rfl

theorem compare_clear_lt_correct2 (u : FheString) (t a : List Nat)
    (hu : fpB u.content = true) (ht : allNZ t = true) (ea : nonzeros u.content = a) :
    StringServerKey.compare_clear_no_init_padding u t Ordering.lt = b2n (lexLe a t) := by
  subst ea
  rw [compare_clear_no_init_padding_b2n]
  congr 1
  apply bool_eq_of_iff
  rw [cmpClearRefB_lt_correct _ _ hu ht]

theorem compare_clear_gt_correct2 (u : FheString) (t a : List Nat)
    (hu : fpB u.content = true) (ht : allNZ t = true) (ea : nonzeros u.content = a) :
    StringServerKey.compare_clear_no_init_padding u t Ordering.gt = b2n (lexLe t a) := by
  subst ea
  rw [compare_clear_no_init_padding_b2n]
  congr 1
  apply bool_eq_of_iff
  rw [cmpClearRefB_gt_correct _ _ hu ht]

theorem le_clear_correct (s1 : FheString) (t : List Nat)
    (h1 : wellFormed s1 = true) (ht : allNZ t = true) :
    StringServerKey.le_clear s1 t = b2n (lexLe (decode s1) t) := by
  have b1 := wellFormed_bound s1 h1
  cases hp1 : s1.padding <;>
    simp only [StringServerKey.le_clear, StringServerKey.compare_clear, hp1] <;>
    refine compare_clear_lt_correct2 _ _ _ ?_ ht ?_ <;>
    first
      | exact fpB_of_padding_none s1 h1 hp1
      | exact fpB_of_padding_final s1 h1 hp1
      | exact remove_initial_padding_fpB s1 b1
      | exact remove_initial_padding_decode s1 b1
      | rfl

theorem ge_clear_correct (s1 : FheString) (t : List Nat)
    (h1 : wellFormed s1 = true) (ht : allNZ t = true) :
    StringServerKey.ge_clear s1 t = b2n (lexLe t (decode s1)) := by
  have b1 := wellFormed_bound s1 h1
  cases hp1 : s1.padding <;>
    simp only [StringServerKey.ge_clear, StringServerKey.compare_clear, hp1] <;>
    refine compare_clear_gt_correct2 _ _ _ ?_ ht ?_ <;>
    first
      | exact fpB_of_padding_none s1 h1 hp1
      | exact fpB_of_padding_final s1 h1 hp1
      | exact remove_initial_padding_fpB s1 b1
      | exact remove_initial_padding_decode s1 b1
      | rfl

/-! ### `compare` with the `Equal` operator computes `eq`'s kernel -/

theorem cmpLoopB_eq_ep : ∀ (a b : List Nat) (e : Bool),
    cmpLoopB Ordering.eq false e a b = (false, e && prefEq a b)
  | [], b, e => by cases b <;> simp [cmpLoopB, prefEq]
  | _ :: _, [], e => by simp [cmpLoopB, prefEq]
  | x :: a, y :: b, e => by
      have hres : (if e && !(e && (x == y)) then cmpCharB Ordering.eq x y else false)
          = false := by
        by_cases hxy : x = y
        · simp [hxy]
        · simp [cmpCharB_eq, beq_eq_false_iff_ne.mpr hxy]
      calc cmpLoopB Ordering.eq false e (x :: a) (y :: b)
          = cmpLoopB Ordering.eq
              (if e && !(e && (x == y)) then cmpCharB Ordering.eq x y else false)
              (e && (x == y)) a b := rfl
        _ = cmpLoopB Ordering.eq false (e && (x == y)) a b := by rw [hres]
        _ = (false, (e && (x == y)) && prefEq a b) := cmpLoopB_eq_ep a b (e && (x == y))
        _ = (false, e && prefEq (x :: a) (y :: b)) := by rw [prefEq, Bool.and_assoc]

theorem cmpRefB_eq_eqRef (a b : List Nat) :
    cmpRefB Ordering.eq a b = eqRef a b := by
  simp only [cmpRefB, eqRef, cmpLoopB_eq_ep a b true, Bool.true_and]
  split_ifs <;> simp

theorem compare_eq_kernel (s1 s2 : FheString) :
    StringServerKey.compare_no_init_padding s1 s2 Ordering.eq =
      StringServerKey.eq_no_init_padding s1 s2 := by
  rw [compare_no_init_padding_b2n, eq_no_init_padding_b2n, cmpRefB_eq_eqRef]

theorem compare_eq_dispatch (s1 s2 : FheString) :
    StringServerKey.compare s1 s2 Ordering.eq = StringServerKey.eqDispatch s1 s2 := by
  cases hp1 : s1.padding <;> cases hp2 : s2.padding <;>
    simp only [StringServerKey.compare, StringServerKey.eqDispatch, hp1, hp2,
      compare_eq_kernel]

/-! ### Consistency of the instrumented dispatchers with the plain ones -/

theorem b2n_eq_one_iff (x : Bool) : b2n x = 1 ↔ x = true := by
  cases x <;> simp

theorem eqDispatchInstr_fst (s1 s2 : FheString) :
    (StringServerKey.eqDispatchInstr s1 s2).1 = StringServerKey.eqDispatch s1 s2 := by
  cases hp1 : s1.padding <;> cases hp2 : s2.padding <;>
    simp [StringServerKey.eqDispatchInstr, StringServerKey.eqDispatch, hp1, hp2]

theorem eqInstr_fst (s1 s2 : FheString) :
    (StringServerKey.eqInstr s1 s2).1 = StringServerKey.eq s1 s2 := by
  cases hl1 : s1.length <;> cases hl2 : s2.length <;>
    simp only [StringServerKey.eqInstr, StringServerKey.eq, hl1, hl2, eqDispatchInstr_fst]
  split_ifs
  · rfl
  · exact eqDispatchInstr_fst s1 s2

theorem eqClearDispatchInstr_fst (s1 : FheString) (t : List Nat) :
    (StringServerKey.eqClearDispatchInstr s1 t).1 = StringServerKey.eqClearDispatch s1 t := by
  cases hp1 : s1.padding <;>
    simp [StringServerKey.eqClearDispatchInstr, StringServerKey.eqClearDispatch, hp1]

theorem eqClearInstr_fst (s1 : FheString) (t : List Nat) :
    (StringServerKey.eqClearInstr s1 t).1 = StringServerKey.eq_clear s1 t := by
  cases hl1 : s1.length <;>
    simp only [StringServerKey.eqClearInstr, StringServerKey.eq_clear, hl1,
      eqClearDispatchInstr_fst]
  split_ifs
  · rfl
  · exact eqClearDispatchInstr_fst s1 t

theorem swDispatchInstr_fst (s pfx : FheString) :
    (StringServerKey.swDispatchInstr s pfx).1 = StringServerKey.swDispatch s pfx := by
  cases hp1 : s.padding <;> cases hp2 : pfx.padding <;>
    simp [StringServerKey.swDispatchInstr, StringServerKey.swDispatch, hp1, hp2]

theorem swInstr_fst (s pfx : FheString) :
    (StringServerKey.swInstr s pfx).1 = StringServerKey.starts_with_encrypted s pfx := by
  cases hl1 : s.length <;> cases hl2 : pfx.length <;>
    simp only [StringServerKey.swInstr, StringServerKey.starts_with_encrypted, hl1, hl2,
      swDispatchInstr_fst] <;>
    split_ifs <;>
    first
      | rfl
      | exact swDispatchInstr_fst s pfx

/-! ## The claims -/

/-- C1: for every pair of well-formed `EncString` operands encrypting
plaintexts `x` and `y`, `eq` returns a ciphertext that decrypts to 1 if and
only if `x = y` as byte strings, and to 0 otherwise. -/
theorem C1_eq_congruence (s1 s2 : FheString)
    (h1 : wellFormed s1 = true) (h2 : wellFormed s2 = true) :
    (StringServerKey.eq s1 s2 = 1 ↔ decode s1 = decode s2) ∧
    (StringServerKey.eq s1 s2 = 0 ↔ decode s1 ≠ decode s2) := by
  rw [eq_correct s1 s2 h1 h2]
  by_cases h : decode s1 = decode s2
  · simp [h]
  · simp [h]

theorem C1_eq_congruence_witness :
    wellFormed (FheString.mk [97, 0] Padding.Final (FheStrLength.Clear 1)) = true ∧
    wellFormed (FheString.mk [0, 97] Padding.Initial (FheStrLength.Clear 1)) = true ∧
    ((StringServerKey.eq (FheString.mk [97, 0] Padding.Final (FheStrLength.Clear 1))
        (FheString.mk [0, 97] Padding.Initial (FheStrLength.Clear 1)) = 1 ↔
      decode (FheString.mk [97, 0] Padding.Final (FheStrLength.Clear 1)) =
        decode (FheString.mk [0, 97] Padding.Initial (FheStrLength.Clear 1))) ∧
     (StringServerKey.eq (FheString.mk [97, 0] Padding.Final (FheStrLength.Clear 1))
        (FheString.mk [0, 97] Padding.Initial (FheStrLength.Clear 1)) = 0 ↔
      decode (FheString.mk [97, 0] Padding.Final (FheStrLength.Clear 1)) ≠
        decode (FheString.mk [0, 97] Padding.Initial (FheStrLength.Clear 1)))) :=
  ⟨by decide, by decide, C1_eq_congruence _ _ (by decide) (by decide)⟩

/-- C2: for well-formed operands, `le` decrypts to 1 iff `x ≤ y` in the
byte-lexicographic order (strict prefix before extension), `ge` decrypts to
1 iff `y ≤ x`; their disjunction always holds and their conjunction holds
exactly when `x = y`. -/
theorem C2_order_total_lex (s1 s2 : FheString)
    (h1 : wellFormed s1 = true) (h2 : wellFormed s2 = true) :
    (StringServerKey.le s1 s2 = 1 ↔ lexLe (decode s1) (decode s2) = true) ∧
    (StringServerKey.ge s1 s2 = 1 ↔ lexLe (decode s2) (decode s1) = true) ∧
    (StringServerKey.le s1 s2 = 1 ∨ StringServerKey.ge s1 s2 = 1) ∧
    ((StringServerKey.le s1 s2 = 1 ∧ StringServerKey.ge s1 s2 = 1) ↔
      decode s1 = decode s2) := by
  rw [le_correct s1 s2 h1 h2, ge_correct s1 s2 h1 h2]
  simp only [b2n_eq_one_iff]
  refine ⟨trivial, trivial, lexLe_total _ _, ?_⟩
  constructor
  · rintro ⟨hab, hba⟩
    exact lexLe_antisymm _ _ hab hba
  · rintro h
    rw [h]
    exact ⟨lexLe_refl _, lexLe_refl _⟩

theorem C2_order_total_lex_witness :
    wellFormed (FheString.mk [99, 100, 101] Padding.InitialAndFinal
      (FheStrLength.Clear 3)) = true ∧
    wellFormed (FheString.mk [99, 101] Padding.InitialAndFinal
      (FheStrLength.Clear 2)) = true ∧
    ((StringServerKey.le (FheString.mk [99, 100, 101] Padding.InitialAndFinal
          (FheStrLength.Clear 3))
        (FheString.mk [99, 101] Padding.InitialAndFinal (FheStrLength.Clear 2)) = 1 ↔
      lexLe (decode (FheString.mk [99, 100, 101] Padding.InitialAndFinal
          (FheStrLength.Clear 3)))
        (decode (FheString.mk [99, 101] Padding.InitialAndFinal
          (FheStrLength.Clear 2))) = true) ∧
     (StringServerKey.ge (FheString.mk [99, 100, 101] Padding.InitialAndFinal
          (FheStrLength.Clear 3))
        (FheString.mk [99, 101] Padding.InitialAndFinal (FheStrLength.Clear 2)) = 1 ↔
      lexLe (decode (FheString.mk [99, 101] Padding.InitialAndFinal
          (FheStrLength.Clear 2)))
        (decode (FheString.mk [99, 100, 101] Padding.InitialAndFinal
          (FheStrLength.Clear 3))) = true) ∧
     (StringServerKey.le (FheString.mk [99, 100, 101] Padding.InitialAndFinal
          (FheStrLength.Clear 3))
        (FheString.mk [99, 101] Padding.InitialAndFinal (FheStrLength.Clear 2)) = 1 ∨
      StringServerKey.ge (FheString.mk [99, 100, 101] Padding.InitialAndFinal
          (FheStrLength.Clear 3))
        (FheString.mk [99, 101] Padding.InitialAndFinal (FheStrLength.Clear 2)) = 1) ∧
     ((StringServerKey.le (FheString.mk [99, 100, 101] Padding.InitialAndFinal
          (FheStrLength.Clear 3))
        (FheString.mk [99, 101] Padding.InitialAndFinal (FheStrLength.Clear 2)) = 1 ∧
       StringServerKey.ge (FheString.mk [99, 100, 101] Padding.InitialAndFinal
          (FheStrLength.Clear 3))
        (FheString.mk [99, 101] Padding.InitialAndFinal (FheStrLength.Clear 2)) = 1) ↔
      decode (FheString.mk [99, 100, 101] Padding.InitialAndFinal
          (FheStrLength.Clear 3)) =
        decode (FheString.mk [99, 101] Padding.InitialAndFinal
          (FheStrLength.Clear 2)))) :=
  ⟨by decide, by decide, C2_order_total_lex _ _ (by decide) (by decide)⟩

/-- C3: for a well-formed `EncString` `s` and any prefix operand — encrypted
with any valid padding, or clear — `starts_with_encrypted` and
`starts_with_clear` decrypt to 1 exactly when the prefix's plaintext is a
byte-prefix of `s`'s plaintext; in particular an empty prefix yields 1. -/
theorem C3_prefix_semantics (s pfx : FheString) (t : List Nat)
    (hs : wellFormed s = true) (hp : wellFormed pfx = true) (ht : allNZ t = true) :
    (StringServerKey.starts_with_encrypted s pfx = 1 ↔
      ∃ rest, decode pfx ++ rest = decode s) ∧
    (StringServerKey.starts_with_clear s t = 1 ↔ ∃ rest, t ++ rest = decode s) ∧
    (decode pfx = [] → StringServerKey.starts_with_encrypted s pfx = 1) ∧
    (StringServerKey.starts_with_clear s [] = 1) := by
  have h1 := starts_with_encrypted_correct s pfx hs hp
  have h2 := starts_with_clear_correct s t hs ht
  have h3 := starts_with_clear_correct s [] hs rfl
  refine ⟨?_, ?_, ?_, ?_⟩
  · rw [h1, b2n_eq_one_iff]
    exact isPrefB_iff _ _
  · rw [h2, b2n_eq_one_iff]
    exact isPrefB_iff _ _
  · intro hempty
    rw [h1, hempty]
    rfl
  · rw [h3]
    rfl

theorem C3_prefix_semantics_witness :
    wellFormed (FheString.mk [0, 98, 99] Padding.InitialAndFinal
      (FheStrLength.Clear 2)) = true ∧
    wellFormed (FheString.mk [98] Padding.InitialAndFinal
      (FheStrLength.Clear 1)) = true ∧
    allNZ [98] = true ∧
    ((StringServerKey.starts_with_encrypted
        (FheString.mk [0, 98, 99] Padding.InitialAndFinal (FheStrLength.Clear 2))
        (FheString.mk [98] Padding.InitialAndFinal (FheStrLength.Clear 1)) = 1 ↔
      ∃ rest, decode (FheString.mk [98] Padding.InitialAndFinal
          (FheStrLength.Clear 1)) ++ rest =
        decode (FheString.mk [0, 98, 99] Padding.InitialAndFinal
          (FheStrLength.Clear 2))) ∧
     (StringServerKey.starts_with_clear
        (FheString.mk [0, 98, 99] Padding.InitialAndFinal (FheStrLength.Clear 2))
        [98] = 1 ↔
      ∃ rest, [98] ++ rest = decode (FheString.mk [0, 98, 99] Padding.InitialAndFinal
          (FheStrLength.Clear 2))) ∧
     (decode (FheString.mk [98] Padding.InitialAndFinal (FheStrLength.Clear 1)) = [] →
      StringServerKey.starts_with_encrypted
        (FheString.mk [0, 98, 99] Padding.InitialAndFinal (FheStrLength.Clear 2))
        (FheString.mk [98] Padding.InitialAndFinal (FheStrLength.Clear 1)) = 1) ∧
     (StringServerKey.starts_with_clear
        (FheString.mk [0, 98, 99] Padding.InitialAndFinal (FheStrLength.Clear 2))
        [] = 1)) :=
  ⟨by decide, by decide, by decide,
    C3_prefix_semantics _ _ _ (by decide) (by decide) (by decide)⟩

/-- C4: every predicate of the module is invariant under re-encoding its
operands with a different buffer length, padding tag and placement of
padding zeros, as long as the plaintexts agree (two-run representation
independence). -/
theorem C4_padding_invariance (s1 s1' s2 s2' : FheString) (t : List Nat)
    (h1 : wellFormed s1 = true) (h1' : wellFormed s1' = true)
    (h2 : wellFormed s2 = true) (h2' : wellFormed s2' = true)
    (e1 : decode s1 = decode s1') (e2 : decode s2 = decode s2')
    (ht : allNZ t = true) :
    StringServerKey.eq s1 s2 = StringServerKey.eq s1' s2' ∧
    StringServerKey.eq_clear s1 t = StringServerKey.eq_clear s1' t ∧
    StringServerKey.le s1 s2 = StringServerKey.le s1' s2' ∧
    StringServerKey.ge s1 s2 = StringServerKey.ge s1' s2' ∧
    StringServerKey.le_clear s1 t = StringServerKey.le_clear s1' t ∧
    StringServerKey.ge_clear s1 t = StringServerKey.ge_clear s1' t ∧
    StringServerKey.starts_with_encrypted s1 s2 =
      StringServerKey.starts_with_encrypted s1' s2' ∧
    StringServerKey.starts_with_clear s1 t =
      StringServerKey.starts_with_clear s1' t := by
  refine ⟨?_, ?_, ?_, ?_, ?_, ?_, ?_, ?_⟩
  · rw [eq_correct s1 s2 h1 h2, eq_correct s1' s2' h1' h2', e1, e2]
  · rw [eq_clear_correct s1 t h1 ht, eq_clear_correct s1' t h1' ht, e1]
  · rw [le_correct s1 s2 h1 h2, le_correct s1' s2' h1' h2', e1, e2]
  · rw [ge_correct s1 s2 h1 h2, ge_correct s1' s2' h1' h2', e1, e2]
  · rw [le_clear_correct s1 t h1 ht, le_clear_correct s1' t h1' ht, e1]
  · rw [ge_clear_correct s1 t h1 ht, ge_clear_correct s1' t h1' ht, e1]
  · rw [starts_with_encrypted_correct s1 s2 h1 h2,
      starts_with_encrypted_correct s1' s2' h1' h2', e1, e2]
  · rw [starts_with_clear_correct s1 t h1 ht, starts_with_clear_correct s1' t h1' ht, e1]

theorem C4_padding_invariance_witness :
    decode (FheString.mk [97, 0] Padding.Final (FheStrLength.Clear 1)) =
      decode (FheString.mk [0, 0, 97] Padding.Initial (FheStrLength.Encrypted 1)) ∧
    decode (FheString.mk [98] Padding.None (FheStrLength.Clear 1)) =
      decode (FheString.mk [0, 98, 0] Padding.InitialAndFinal (FheStrLength.Clear 1)) ∧
    StringServerKey.eq (FheString.mk [97, 0] Padding.Final (FheStrLength.Clear 1))
        (FheString.mk [98] Padding.None (FheStrLength.Clear 1)) =
      StringServerKey.eq (FheString.mk [0, 0, 97] Padding.Initial
          (FheStrLength.Encrypted 1))
        (FheString.mk [0, 98, 0] Padding.InitialAndFinal (FheStrLength.Clear 1)) ∧
    StringServerKey.le (FheString.mk [97, 0] Padding.Final (FheStrLength.Clear 1))
        (FheString.mk [98] Padding.None (FheStrLength.Clear 1)) =
      StringServerKey.le (FheString.mk [0, 0, 97] Padding.Initial
          (FheStrLength.Encrypted 1))
        (FheString.mk [0, 98, 0] Padding.InitialAndFinal (FheStrLength.Clear 1)) ∧
    StringServerKey.starts_with_clear
        (FheString.mk [97, 0] Padding.Final (FheStrLength.Clear 1)) [97] =
      StringServerKey.starts_with_clear
        (FheString.mk [0, 0, 97] Padding.Initial (FheStrLength.Encrypted 1)) [97] :=
  ⟨by decide, by decide,
    (C4_padding_invariance (FheString.mk [97, 0] Padding.Final (FheStrLength.Clear 1))
      (FheString.mk [0, 0, 97] Padding.Initial (FheStrLength.Encrypted 1))
      (FheString.mk [98] Padding.None (FheStrLength.Clear 1))
      (FheString.mk [0, 98, 0] Padding.InitialAndFinal (FheStrLength.Clear 1))
      [97] (by decide) (by decide) (by decide) (by decide)
      (by decide) (by decide) (by decide)).1,
    (C4_padding_invariance (FheString.mk [97, 0] Padding.Final (FheStrLength.Clear 1))
      (FheString.mk [0, 0, 97] Padding.Initial (FheStrLength.Encrypted 1))
      (FheString.mk [98] Padding.None (FheStrLength.Clear 1))
      (FheString.mk [0, 98, 0] Padding.InitialAndFinal (FheStrLength.Clear 1))
      [97] (by decide) (by decide) (by decide) (by decide)
      (by decide) (by decide) (by decide)).2.2.1,
    (C4_padding_invariance (FheString.mk [97, 0] Padding.Final (FheStrLength.Clear 1))
      (FheString.mk [0, 0, 97] Padding.Initial (FheStrLength.Encrypted 1))
      (FheString.mk [98] Padding.None (FheStrLength.Clear 1))
      (FheString.mk [0, 98, 0] Padding.InitialAndFinal (FheStrLength.Clear 1))
      [97] (by decide) (by decide) (by decide) (by decide)
      (by decide) (by decide) (by decide)).2.2.2.2.2.2.2⟩

/-- C5: `remove_initial_padding` returns a string with the same buffer
length whose content is the non-zero bytes of `s` in order followed by
zeros, with padding tag `Final` and an unchanged length field. -/
theorem C5_normalizer_correct (s : FheString) (h : wellFormed s = true) :
    (StringServerKey.remove_initial_padding s).content.length = s.content.length ∧
    (StringServerKey.remove_initial_padding s).content =
      decode s ++ List.replicate (s.content.length - (decode s).length) 0 ∧
    (StringServerKey.remove_initial_padding s).padding = Padding.Final ∧
    (StringServerKey.remove_initial_padding s).length = s.length := by
  have b := wellFormed_bound s h
  exact ⟨remove_initial_padding_length_eq s b, remove_initial_padding_content s b,
    rfl, rfl⟩

theorem C5_normalizer_correct_witness :
    wellFormed (FheString.mk [0, 97, 98, 0] Padding.InitialAndFinal
      (FheStrLength.Clear 2)) = true ∧
    ((StringServerKey.remove_initial_padding (FheString.mk [0, 97, 98, 0]
        Padding.InitialAndFinal (FheStrLength.Clear 2))).content.length =
      (FheString.mk [0, 97, 98, 0] Padding.InitialAndFinal
        (FheStrLength.Clear 2)).content.length ∧
     (StringServerKey.remove_initial_padding (FheString.mk [0, 97, 98, 0]
        Padding.InitialAndFinal (FheStrLength.Clear 2))).content =
      decode (FheString.mk [0, 97, 98, 0] Padding.InitialAndFinal
        (FheStrLength.Clear 2)) ++
        List.replicate ((FheString.mk [0, 97, 98, 0] Padding.InitialAndFinal
          (FheStrLength.Clear 2)).content.length -
          (decode (FheString.mk [0, 97, 98, 0] Padding.InitialAndFinal
            (FheStrLength.Clear 2))).length) 0 ∧
     (StringServerKey.remove_initial_padding (FheString.mk [0, 97, 98, 0]
        Padding.InitialAndFinal (FheStrLength.Clear 2))).padding = Padding.Final ∧
     (StringServerKey.remove_initial_padding (FheString.mk [0, 97, 98, 0]
        Padding.InitialAndFinal (FheStrLength.Clear 2))).length =
      (FheString.mk [0, 97, 98, 0] Padding.InitialAndFinal
        (FheStrLength.Clear 2)).length) :=
  ⟨by decide, C5_normalizer_correct _ (by decide)⟩

/-- C6: `pop_first_non_zero_char` returns the first non-zero byte of the
slice and replaces exactly that position by zero (via `List.set`, which
leaves every other position unchanged); on an all-zero slice it returns 0
and leaves the slice unchanged. -/
theorem C6_pop_first_non_zero_char (l : List Nat) (h : ∀ c ∈ l, c < 256) :
    ((∃ c ∈ l, c ≠ 0) →
      (StringServerKey.pop_first_non_zero_char l).1 =
          l.getD (l.findIdx (fun c => c != 0)) 0 ∧
        (StringServerKey.pop_first_non_zero_char l).1 ≠ 0 ∧
        (StringServerKey.pop_first_non_zero_char l).2 =
          l.set (l.findIdx (fun c => c != 0)) 0) ∧
    ((∀ c ∈ l, c = 0) →
      (StringServerKey.pop_first_non_zero_char l).1 = 0 ∧
      (StringServerKey.pop_first_non_zero_char l).2 = l) := by
  rw [pop_first_non_zero_char_spec l h]
  constructor
  · intro hex
    obtain ⟨hgd, hne⟩ := headD_nonzeros_getD l hex
    exact ⟨hgd, hne, zeroFirst_eq_set l⟩
  · intro hall
    have hz : allZ l = true := (allZ_iff l).mpr hall
    refine ⟨?_, zeroFirst_of_allZ l hall⟩
    rw [nonzeros_allZ l hz]
    rfl

theorem C6_pop_first_non_zero_char_witness :
    (∀ c ∈ [0, 97, 98, 0], c < 256) ∧
    ((∃ c ∈ [0, 97, 98, 0], c ≠ 0) →
      (StringServerKey.pop_first_non_zero_char [0, 97, 98, 0]).1 =
          [0, 97, 98, 0].getD ([0, 97, 98, 0].findIdx (fun c => c != 0)) 0 ∧
        (StringServerKey.pop_first_non_zero_char [0, 97, 98, 0]).1 ≠ 0 ∧
        (StringServerKey.pop_first_non_zero_char [0, 97, 98, 0]).2 =
          [0, 97, 98, 0].set ([0, 97, 98, 0].findIdx (fun c => c != 0)) 0) ∧
    ((∀ c ∈ [0, 97, 98, 0], c = 0) →
      (StringServerKey.pop_first_non_zero_char [0, 97, 98, 0]).1 = 0 ∧
      (StringServerKey.pop_first_non_zero_char [0, 97, 98, 0]).2 = [0, 97, 98, 0]) :=
  ⟨by decide, (C6_pop_first_non_zero_char [0, 97, 98, 0] (by decide)).1,
    (C6_pop_first_non_zero_char [0, 97, 98, 0] (by decide)).2⟩

/-- C7: the claim says `remove_initial_padding_assign` preserves the buffer
length and the plaintext; the code runs one pop too few (`for _ in
1..len`), so on the well-formed string with content `[97]` and tag
`Initial` it shrinks the buffer from 1 to 0 and loses the plaintext byte
97, contradicting both the claim and the function's own documentation
("an encryption of the same string"). -/
theorem C7_assign_one_fewer_iteration :
    wellFormed (FheString.mk [97] Padding.Initial (FheStrLength.Clear 1)) = true ∧
    StringServerKey.remove_initial_padding_assign
        (FheString.mk [97] Padding.Initial (FheStrLength.Clear 1)) =
      FheString.mk [] Padding.Final (FheStrLength.Clear 1) ∧
    (StringServerKey.remove_initial_padding_assign
        (FheString.mk [97] Padding.Initial (FheStrLength.Clear 1))).content.length ≠
      (FheString.mk [97] Padding.Initial (FheStrLength.Clear 1)).content.length ∧
    decode (StringServerKey.remove_initial_padding_assign
        (FheString.mk [97] Padding.Initial (FheStrLength.Clear 1))) ≠
      decode (FheString.mk [97] Padding.Initial (FheStrLength.Clear 1)) :=
  ⟨by decide, by decide, by decide, by decide⟩

/-- C8: when both `eq` operands carry `Clear` lengths with `l1 ≠ l2` (resp.
the `eq_clear` operand carries a `Clear` length different from the clear
string's length), the dispatcher returns a fresh encryption of 0 at once:
the instrumented dispatchers report zero kernel invocations and zero
normalizer invocations, for every content and padding. -/
theorem C8_fast_path_no_kernel (c1 c2 : List Nat) (p1 p2 : Padding) (l1 l2 : Nat)
    (t : List Nat) :
    (l1 ≠ l2 →
      StringServerKey.eqInstr (FheString.mk c1 p1 (FheStrLength.Clear l1))
          (FheString.mk c2 p2 (FheStrLength.Clear l2)) =
        (StringServerKey.create_zero, 0, 0)) ∧
    (l1 ≠ t.length →
      StringServerKey.eqClearInstr (FheString.mk c1 p1 (FheStrLength.Clear l1)) t =
        (StringServerKey.create_zero, 0, 0)) := by
  constructor
  · intro hne
    simp [StringServerKey.eqInstr, hne]
  · intro hne
    simp [StringServerKey.eqClearInstr, hne]

theorem C8_fast_path_no_kernel_witness :
    ((1 : Nat) ≠ 2 →
      StringServerKey.eqInstr (FheString.mk [97] Padding.None (FheStrLength.Clear 1))
          (FheString.mk [98, 99] Padding.None (FheStrLength.Clear 2)) =
        (StringServerKey.create_zero, 0, 0)) ∧
    ((1 : Nat) ≠ [98, 99].length →
      StringServerKey.eqClearInstr
          (FheString.mk [97] Padding.None (FheStrLength.Clear 1)) [98, 99] =
        (StringServerKey.create_zero, 0, 0)) :=
  C8_fast_path_no_kernel [97] [98, 99] Padding.None Padding.None 1 2 [98, 99]

/-- C9 counterexample: a call where the prefix's *buffer* length (3)
exceeds `s`'s buffer length (2) and `prefix.length` is `Clear`, yet the
dispatcher does not return 0: it runs the comparison kernel (instrumented
count 1) and the result decrypts to 1 — correctly so, because the prefix's
true length is only 1.  The claim as stated is false. -/
theorem C9_buffer_fast_path_counterexample :
    (FheString.mk [98, 0, 0] Padding.Final (FheStrLength.Clear 1)).content.length >
      (FheString.mk [98, 99] Padding.None (FheStrLength.Encrypted 2)).content.length ∧
    wellFormed (FheString.mk [98, 99] Padding.None (FheStrLength.Encrypted 2)) = true ∧
    wellFormed (FheString.mk [98, 0, 0] Padding.Final (FheStrLength.Clear 1)) = true ∧
    StringServerKey.swInstr
        (FheString.mk [98, 99] Padding.None (FheStrLength.Encrypted 2))
        (FheString.mk [98, 0, 0] Padding.Final (FheStrLength.Clear 1)) = (1, 1, 0) ∧
    StringServerKey.starts_with_encrypted
        (FheString.mk [98, 99] Padding.None (FheStrLength.Encrypted 2))
        (FheString.mk [98, 0, 0] Padding.Final (FheStrLength.Clear 1)) ≠
      StringServerKey.create_zero :=
  ⟨by decide, by decide, by decide, by decide, by decide⟩

/-- C9 amended: the fast path of `starts_with_encrypted` is keyed on the
prefix's clear *true* length, not its buffer length: whenever
`prefix.length = Clear l` with `l` greater than `s`'s buffer length, the
dispatcher returns an encryption of 0 immediately, invoking neither a
comparison kernel nor the padding normalizer. -/
theorem C9_clear_length_fast_path (s pfx : FheString) (l_pfx : Nat)
    (hl : pfx.length = FheStrLength.Clear l_pfx) (hgt : l_pfx > s.content.length) :
    StringServerKey.swInstr s pfx = (StringServerKey.create_zero, 0, 0) := by
  cases hl1 : s.length <;> simp only [StringServerKey.swInstr, hl, hl1]
  · rename_i l
    by_cases h1 : l_pfx > l
    · rw [if_pos h1]
    · rw [if_neg h1, if_pos hgt]
  · rw [if_pos hgt]

theorem C9_clear_length_fast_path_witness :
    (FheString.mk [98, 0, 0] Padding.Final (FheStrLength.Clear 3)).length =
      FheStrLength.Clear 3 ∧
    3 > (FheString.mk [98, 99] Padding.None (FheStrLength.Encrypted 2)).content.length ∧
    StringServerKey.swInstr
        (FheString.mk [98, 99] Padding.None (FheStrLength.Encrypted 2))
        (FheString.mk [98, 0, 0] Padding.Final (FheStrLength.Clear 3)) =
      (StringServerKey.create_zero, 0, 0) :=
  ⟨rfl, by decide,
    C9_clear_length_fast_path
      (FheString.mk [98, 99] Padding.None (FheStrLength.Encrypted 2))
      (FheString.mk [98, 0, 0] Padding.Final (FheStrLength.Clear 3)) 3 rfl (by decide)⟩

/-- C10: on well-formed operands, the oblivious lexicographic recurrence
run with the `Equal` operator computes string equality: `compare(s1, s2,
Equal)` returns the same plaintext as `eq(s1, s2)`, even though `eq`
additionally takes the clear-length fast path. -/
theorem C10_compare_equal_is_eq (s1 s2 : FheString)
    (h1 : wellFormed s1 = true) (h2 : wellFormed s2 = true) :
    StringServerKey.compare s1 s2 Ordering.eq = StringServerKey.eq s1 s2 := by
  rw [compare_eq_dispatch s1 s2]
  cases hl1 : s1.length <;> cases hl2 : s2.length <;>
    simp only [StringServerKey.eq, hl1, hl2]
  rename_i l1 l2
  by_cases hne : l1 ≠ l2
  · rw [if_pos hne, eqDispatch_correct s1 s2 h1 h2]
    have e1 := wellFormed_len_clear s1 l1 h1 hl1
    have e2 := wellFormed_len_clear s2 l2 h2 hl2
    have hd : ¬ (decode s1 = decode s2) := fun hc => hne (by
      rw [e1, e2]
      exact congrArg List.length hc)
    rw [decide_eq_false hd, b2n_false]
    rfl
  · rw [if_neg hne]

theorem C10_compare_equal_is_eq_witness :
    wellFormed (FheString.mk [98, 0] Padding.InitialAndFinal
      (FheStrLength.Clear 1)) = true ∧
    wellFormed (FheString.mk [0, 98, 99] Padding.InitialAndFinal
      (FheStrLength.Clear 2)) = true ∧
    StringServerKey.compare (FheString.mk [98, 0] Padding.InitialAndFinal
        (FheStrLength.Clear 1))
      (FheString.mk [0, 98, 99] Padding.InitialAndFinal (FheStrLength.Clear 2))
      Ordering.eq =
    StringServerKey.eq (FheString.mk [98, 0] Padding.InitialAndFinal
        (FheStrLength.Clear 1))
      (FheString.mk [0, 98, 99] Padding.InitialAndFinal (FheStrLength.Clear 2)) :=
  ⟨by decide, by decide, C10_compare_equal_is_eq _ _ (by decide) (by decide)⟩

/-! ## Concrete scenarios from the repository's test module (spec §8) -/

example : StringServerKey.pop_first_non_zero_char [0, 97, 98, 0] = (97, [0, 0, 98, 0]) := by
  decide

example : StringServerKey.remove_initial_padding
    (FheString.mk [0, 97] Padding.InitialAndFinal (FheStrLength.Clear 1)) =
    FheString.mk [97, 0] Padding.Final (FheStrLength.Clear 1) := by decide

example : StringServerKey.remove_initial_padding_assign
    (FheString.mk [0, 97] Padding.InitialAndFinal (FheStrLength.Clear 1)) =
    FheString.mk [97] Padding.Final (FheStrLength.Clear 1) := by decide

example : StringServerKey.eq
    (FheString.mk [97, 0] Padding.InitialAndFinal (FheStrLength.Clear 1))
    (FheString.mk [98] Padding.InitialAndFinal (FheStrLength.Clear 1)) = 0 := by decide

example : StringServerKey.eq
    (FheString.mk [98, 0] Padding.InitialAndFinal (FheStrLength.Clear 2))
    (FheString.mk [0, 98, 99] Padding.InitialAndFinal (FheStrLength.Clear 2)) = 0 := by
  decide

example : StringServerKey.eq
    (FheString.mk [98, 97] Padding.InitialAndFinal (FheStrLength.Clear 2))
    (FheString.mk [98] Padding.InitialAndFinal (FheStrLength.Clear 2)) = 0 := by decide

example : StringServerKey.le
    (FheString.mk [99, 100, 101] Padding.InitialAndFinal (FheStrLength.Clear 3))
    (FheString.mk [99, 101] Padding.InitialAndFinal (FheStrLength.Clear 2)) = 1 := by
  decide

example : StringServerKey.ge
    (FheString.mk [99, 100, 101] Padding.InitialAndFinal (FheStrLength.Clear 3))
    (FheString.mk [99, 101] Padding.InitialAndFinal (FheStrLength.Clear 2)) = 0 := by
  decide

example : StringServerKey.le_clear
    (FheString.mk [98, 100, 0] Padding.Final (FheStrLength.Clear 2)) [98, 100] = 1 := by
  decide

example : StringServerKey.ge_clear
    (FheString.mk [98, 100, 0] Padding.Final (FheStrLength.Clear 2))
    [97, 100, 97] = 1 := by decide

example : StringServerKey.eq_clear
    (FheString.mk [0, 0] Padding.InitialAndFinal (FheStrLength.Encrypted 0)) [] = 1 := by
  decide

example : StringServerKey.eq_clear
    (FheString.mk [0, 0] Padding.InitialAndFinal (FheStrLength.Encrypted 0))
    [98] = 0 := by decide

example : StringServerKey.eq_clear
    (FheString.mk [0, 0] Padding.InitialAndFinal (FheStrLength.Encrypted 0))
    [98, 100] = 0 := by decide

example : StringServerKey.starts_with_encrypted
    (FheString.mk [0, 98, 99] Padding.InitialAndFinal (FheStrLength.Clear 2))
    (FheString.mk [98] Padding.InitialAndFinal (FheStrLength.Clear 2)) = 1 := by decide

example : StringServerKey.starts_with_clear
    (FheString.mk [98, 99] Padding.InitialAndFinal (FheStrLength.Clear 2)) [] = 1 := by
  decide

example : StringServerKey.starts_with_clear
    (FheString.mk [98, 99] Padding.InitialAndFinal (FheStrLength.Clear 2)) [98] = 1 := by
  decide

example : StringServerKey.starts_with_clear
    (FheString.mk [98, 99] Padding.InitialAndFinal (FheStrLength.Clear 2))
    [98, 99] = 1 := by decide

example : StringServerKey.starts_with_clear
    (FheString.mk [98, 99] Padding.InitialAndFinal (FheStrLength.Clear 2)) [100] = 0 := by
  decide

example : StringServerKey.starts_with_clear
    (FheString.mk [98, 99] Padding.InitialAndFinal (FheStrLength.Clear 2))
    [100, 101, 102] = 0 := by decide
